import Mathlib

/-!
# crypto-cli: manifest codec and encrypted blob transitions

A shallow embedding of `distribution/manifest_json.go`,
`distribution/encryptedBlob.go`, `crypto/json.go` and the function `Execute`
of `cmd/root.go`.

Conventions of the embedding.

* A `json.RawMessage` is represented by the JSON value it spells (`JSON`); an
  object keeps its members in document order, duplicates included.
* `encoding/json` is a library: its behaviour on the Go types involved is
  written out below (null handling, pointer allocation, case-insensitive
  field matching, first type error reported while decoding goes on, a repeated
  member decoded into the value the earlier one left, a nil slice encoded as
  `null`).
* A Go function returning `(value, error)` is a pair `value × Option GoError`
  when the value is meaningful next to an error, and an `Outcome` when the code
  may also stop on a nil dereference.
* Go strings are Lean strings, so byte sequences that are not valid UTF-8 are
  outside the model.
* The cryptographic and encoding libraries (`crypto/aes`, `crypto/cipher`,
  `encoding/base64`) are parameters (`JSONCrypto`); what a proof needs of them
  is stated as a law (`JSONCrypto.Lawful`).
-/

namespace CryptoCli

/-! ## JSON values and Go errors -/

/-- JSON values. `int` is a number literal without fraction or exponent,
`float` any other number literal (kept as text). -/
inductive JSON where
  | null
  | bool (b : Bool)
  | int (n : Int)
  | float (lit : String)
  | str (s : String)
  | arr (items : List JSON)
  | obj (members : List (String × JSON))

/-- The word `encoding/json` uses for a value in an `UnmarshalTypeError`. -/
def JSON.kind : JSON → String
  | .null => "null"
  | .bool _ => "bool"
  | .int _ => "number"
  | .float _ => "number"
  | .str _ => "string"
  | .arr _ => "array"
  | .obj _ => "object"

/-- Go error values met in the embedded code. -/
inductive GoError where
  | message (msg : String)
  | unmarshalType (value : String) (target : String)
  | withStack (cause : GoError)
  deriving DecidableEq, Repr

/-- The text returned by the method `Error()`. -/
def GoError.Error : GoError → String
  | .message msg => msg
  | .unmarshalType value target =>
      "json: cannot unmarshal " ++ value ++ " into Go value of type " ++ target
  | .withStack cause => cause.Error

/-- Result of Go code that returns a value, returns an error, or stops on a
run-time fault (nil pointer dereference). -/
inductive Outcome (α : Type) where
  | ok (a : α)
  | error (e : GoError)
  | fault (msg : String)
  deriving DecidableEq, Repr

/-- Text of the run-time fault raised on a nil dereference. -/
def nilDeref : String := "invalid memory address or nil pointer dereference"

/-- The `*json.UnmarshalTypeError` for value `j` and a Go type. -/
def typeError (j : JSON) (target : String) : GoError :=
  .unmarshalType j.kind target

/-- The decoder keeps the first type error and goes on decoding. -/
def firstError : Option GoError → Option GoError → Option GoError
  | some e, _ => some e
  | none, later => later

/-! ## `encoding/json` on the Go types of the codec -/

/-- Simple case folding restricted to what can meet an ASCII field name: the
ASCII capitals, the Kelvin sign and the long s. -/
def foldRune (c : Char) : Char :=
  if c = Char.ofNat 0x212A then 'k'
  else if c = Char.ofNat 0x17F then 's'
  else c.toLower

/-- A member key selects a struct field when it equals the field name up to
case folding (an exact match is a special case). -/
def fieldMatch (name key : String) : Bool :=
  key.toList.map foldRune == name.toList.map foldRune

/-- Decoding into a Go `string`: `null` leaves it, a JSON string sets it. -/
def decodeString (old : String) (j : JSON) : String × Option GoError :=
  match j with
  | .null => (old, none)
  | .str s => (s, none)
  | _ => (old, some (typeError j "string"))

/-- Smallest `int64`. -/
def minInt64 : Int := -9223372036854775808

/-- Largest `int64`. -/
def maxInt64 : Int := 9223372036854775807

/-- Decoding into a Go `int64` (also `int` on a 64-bit target): only an integer
literal in range sets it. -/
def decodeInt64 (target : String) (old : Int) (j : JSON) : Int × Option GoError :=
  match j with
  | .null => (old, none)
  | .int n =>
      if minInt64 ≤ n ∧ n ≤ maxInt64 then (n, none) else (old, some (typeError j target))
  | _ => (old, some (typeError j target))

/-- Elements of a JSON array decoded as Go strings into the backing array of
the slice, in place: element `i` starts from the string the backing array
holds at index `i`, or from the zero value past its end. -/
def decodeStringElems : List String → List JSON → List String × Option GoError
  | _, [] => ([], none)
  | backing, j :: js =>
      let r := decodeString (backing.headD "") j
      let rs := decodeStringElems backing.tail js
      (r.1 :: rs.1, firstError r.2 rs.2)

/-- Decoding into a Go `[]string`. The slice is given by its elements (`none`
is the nil slice) and by `spare`, what its backing array holds after them.
`null` gives nil; an empty array gives a fresh empty slice; a non-empty array
is decoded element by element into the backing array, grown with zero values
when it is too short, and the slice is cut to the length of the array, the
rest of the backing array staying behind it; anything else is a type error. -/
def decodeStringSlice (old : Option (List String)) (spare : List String) (j : JSON) :
    (Option (List String) × List String) × Option GoError :=
  match j with
  | .null => ((none, []), none)
  | .arr [] => ((some [], []), none)
  | .arr items =>
      let backing := old.getD [] ++ spare
      let r := decodeStringElems backing items
      ((some r.1, backing.drop items.length), r.2)
  | _ => ((old, spare), some (typeError j "[]string"))

/-- Members of a JSON object applied in document order to a struct. -/
def decodeMembers {α : Type} (step : α → String → JSON → α × Option GoError) (init : α) :
    List (String × JSON) → α × Option GoError
  | [] => (init, none)
  | kv :: rest =>
      let r := step init kv.1 kv.2
      let rs := decodeMembers step r.1 rest
      (rs.1, firstError r.2 rs.2)

/-! ## Blob records -/

/-- Modelled from the spec: the struct `NoncryptedBlob` is declared outside the
files under study; it is the shared record (digest, size, media type, on-disk
file name) with wire keys `digest`, `mediaType`, `size`, the file name not
being part of the wire format. -/
structure NoncryptedBlob where
  Digest : String
  MediaType : String
  Size : Int
  Filename : String
  deriving DecidableEq, Repr

/-- The zero value of `NoncryptedBlob`. -/
def NoncryptedBlob.zero : NoncryptedBlob := ⟨"", "", 0, ""⟩

/-- Modelled from the spec: the struct `EnCrypto` is declared outside the files
under study; it is the encrypted key object (algorithm identifier, base64-URL
key ciphertext) with wire keys `algos` and `key`. -/
structure EnCrypto where
  Algos : String
  EncKey : String
  deriving DecidableEq, Repr

/-- The zero value of `EnCrypto`. -/
def EnCrypto.zero : EnCrypto := ⟨"", ""⟩

/-- Modelled from the spec: the struct `DeCrypto` is declared outside the files
under study; it is the decrypted key material (algorithm identifier, raw data
key bytes, salt). -/
structure DeCrypto where
  Algos : String
  DecKey : List Nat
  Salt : List Nat
  deriving DecidableEq, Repr

/-- The struct `encryptedBlobNew`: two embedded pointers, the second under the
wire key `crypto`. `none` is a nil pointer. -/
structure encryptedBlobNew where
  NoncryptedBlob : Option NoncryptedBlob
  EnCrypto : Option EnCrypto
  deriving DecidableEq, Repr

/-- The struct `encryptedBlobCompat`; `URLs = none` is the nil slice. -/
structure encryptedBlobCompat where
  NoncryptedBlob : Option NoncryptedBlob
  URLs : Option (List String)
  deriving DecidableEq, Repr

/-- The struct `encryptedConfigNew`: its `EnCrypto` pointer is tagged `json:"-"`. -/
structure encryptedConfigNew where
  NoncryptedBlob : Option NoncryptedBlob
  EnCrypto : Option EnCrypto
  deriving DecidableEq, Repr

/-- The struct `encryptedConfigCompat`. -/
structure encryptedConfigCompat where
  NoncryptedBlob : Option NoncryptedBlob
  URLs : Option (List String)
  deriving DecidableEq, Repr

/-- The struct `keyDecryptedBlob`, as built by `DecryptKey` of a layer. -/
structure keyDecryptedBlob where
  NoncryptedBlob : Option NoncryptedBlob
  DeCrypto : Option DeCrypto
  deriving DecidableEq, Repr

/-- The struct `keyDecryptedConfig`, as built by `DecryptKey` of a config. -/
structure keyDecryptedConfig where
  NoncryptedBlob : Option NoncryptedBlob
  DeCrypto : Option DeCrypto
  deriving DecidableEq, Repr

/-- The interface `KeyDecryptedBlob` with its two implementations. -/
inductive KeyDecryptedBlob where
  | blob (b : keyDecryptedBlob)
  | config (c : keyDecryptedConfig)
  deriving DecidableEq, Repr

/-- A non-nil value of the interface `Blob`: a pointer to one of the blob
structs. -/
inductive Blob where
  | noncrypted (b : NoncryptedBlob)
  | encryptedBlobNew (b : encryptedBlobNew)
  | encryptedBlobCompat (b : encryptedBlobCompat)
  | encryptedConfigNew (c : encryptedConfigNew)
  | encryptedConfigCompat (c : encryptedConfigCompat)
  | keyDecrypted (k : KeyDecryptedBlob)
  deriving DecidableEq, Repr

/-! ## Decoding the blob structs -/

/-- The field of `NoncryptedBlob` selected by a member key, decoded; `none`
when the key selects no field. -/
def NoncryptedBlob.member (b : NoncryptedBlob) (key : String) (v : JSON) :
    Option (NoncryptedBlob × Option GoError) :=
  if fieldMatch "digest" key then
    let r := decodeString b.Digest v
    some ({ b with Digest := r.1 }, r.2)
  else if fieldMatch "mediaType" key then
    let r := decodeString b.MediaType v
    some ({ b with MediaType := r.1 }, r.2)
  else if fieldMatch "size" key then
    let r := decodeInt64 "int64" b.Size v
    some ({ b with Size := r.1 }, r.2)
  else none

/-- A member reaching a field through the embedded `*NoncryptedBlob`: the
pointer is allocated when nil. -/
def embeddedMember (p : Option NoncryptedBlob) (key : String) (v : JSON) :
    Option (Option NoncryptedBlob × Option GoError) :=
  match (p.getD NoncryptedBlob.zero).member key v with
  | some r => some (some r.1, r.2)
  | none => none

/-- One object member decoded into an `EnCrypto`. -/
def EnCrypto.step (e : EnCrypto) (key : String) (v : JSON) : EnCrypto × Option GoError :=
  if fieldMatch "algos" key then
    let r := decodeString e.Algos v
    ({ e with Algos := r.1 }, r.2)
  else if fieldMatch "key" key then
    let r := decodeString e.EncKey v
    ({ e with EncKey := r.1 }, r.2)
  else (e, none)

/-- Decoding into a `*EnCrypto` field: `null` sets the pointer to nil, anything
else allocates it when nil; an object then fills the fields. -/
def decodeEnCryptoPtr (old : Option EnCrypto) (j : JSON) : Option EnCrypto × Option GoError :=
  match j with
  | .null => (none, none)
  | .obj members =>
      let r := decodeMembers EnCrypto.step (old.getD EnCrypto.zero) members
      (some r.1, r.2)
  | _ => (some (old.getD EnCrypto.zero), some (typeError j "distribution.EnCrypto"))

/-- One object member decoded into a `NoncryptedBlob`; unknown keys are skipped. -/
def NoncryptedBlob.step (b : NoncryptedBlob) (key : String) (v : JSON) :
    NoncryptedBlob × Option GoError :=
  match b.member key v with
  | some r => r
  | none => (b, none)

/-- One object member decoded into an `encryptedBlobNew`. -/
def encryptedBlobNew.step (b : encryptedBlobNew) (key : String) (v : JSON) :
    encryptedBlobNew × Option GoError :=
  match embeddedMember b.NoncryptedBlob key v with
  | some r => ({ b with NoncryptedBlob := r.1 }, r.2)
  | none =>
      if fieldMatch "crypto" key then
        let r := decodeEnCryptoPtr b.EnCrypto v
        ({ b with EnCrypto := r.1 }, r.2)
      else (b, none)

/-- One object member decoded into an `encryptedBlobCompat`; the second
component of the state is what the backing array of `URLs` holds after its
elements. -/
def encryptedBlobCompat.step (st : encryptedBlobCompat × List String) (key : String) (v : JSON) :
    (encryptedBlobCompat × List String) × Option GoError :=
  match embeddedMember st.1.NoncryptedBlob key v with
  | some r => (({ st.1 with NoncryptedBlob := r.1 }, st.2), r.2)
  | none =>
      if fieldMatch "urls" key then
        let r := decodeStringSlice st.1.URLs st.2 v
        (({ st.1 with URLs := r.1.1 }, r.1.2), r.2)
      else (st, none)

/-- One object member decoded into an `encryptedConfigNew`: the `EnCrypto`
field is tagged `json:"-"`, so only the shared record has wire fields. -/
def encryptedConfigNew.step (c : encryptedConfigNew) (key : String) (v : JSON) :
    encryptedConfigNew × Option GoError :=
  match embeddedMember c.NoncryptedBlob key v with
  | some r => ({ c with NoncryptedBlob := r.1 }, r.2)
  | none => (c, none)

/-- One object member decoded into an `encryptedConfigCompat`; the second
component of the state is what the backing array of `URLs` holds after its
elements. -/
def encryptedConfigCompat.step (st : encryptedConfigCompat × List String) (key : String)
    (v : JSON) : (encryptedConfigCompat × List String) × Option GoError :=
  match embeddedMember st.1.NoncryptedBlob key v with
  | some r => (({ st.1 with NoncryptedBlob := r.1 }, st.2), r.2)
  | none =>
      if fieldMatch "urls" key then
        let r := decodeStringSlice st.1.URLs st.2 v
        (({ st.1 with URLs := r.1.1 }, r.1.2), r.2)
      else (st, none)

/-! ## The manifest codec: decoding (`manifest_json.go`) -/

/-- A Go `map[string]json.RawMessage`: entries with pairwise distinct keys. -/
abbrev RawMap := List (String × JSON)

/-- Assignment `m[k] = v`: the entry of `k` is replaced, or a new one added. -/
def RawMap.insert : RawMap → String → JSON → RawMap
  | [], k, v => [(k, v)]
  | kv :: rest, k, v => if kv.1 = k then (k, v) :: rest else kv :: RawMap.insert rest k v

/-- The map filled from the members of an object, a later duplicate key
overwriting the earlier one. -/
def RawMap.ofMembers (members : List (String × JSON)) : RawMap :=
  members.foldl (fun m kv => RawMap.insert m kv.1 kv.2) []

/-- The test `_, ok := m[k]`. -/
def RawMap.has (m : RawMap) (k : String) : Bool :=
  m.any (fun kv => kv.1 == k)

/-- The call `json.Unmarshal(data, &rawMap)` on an empty map: an object fills
it, `null` makes it nil (no entry), anything else is a type error. -/
def unmarshalRawMap (j : JSON) : Except GoError RawMap :=
  match j with
  | .null => .ok []
  | .obj members => .ok (RawMap.ofMembers members)
  | _ => .error (typeError j "map[string]json.RawMessage")

/-- The blob `unmarshalLayer` allocates before decoding into it, chosen by the
presence of the keys `crypto` and `urls` in the map. -/
def layerTemplate (blobMap : RawMap) : Blob :=
  if blobMap.has "crypto" then .encryptedBlobNew ⟨none, none⟩
  else if blobMap.has "urls" then .encryptedBlobCompat ⟨none, none⟩
  else .noncrypted NoncryptedBlob.zero

/-- The blob `unmarshalConfig` allocates before decoding into it. -/
def configTemplate (blobMap : RawMap) : Blob :=
  if blobMap.has "crypto" then .encryptedConfigNew ⟨none, none⟩
  else if blobMap.has "urls" then .encryptedConfigCompat ⟨none, none⟩
  else .noncrypted NoncryptedBlob.zero

/-- The call `json.Unmarshal(m, &blob)` for an interface value `blob` holding a
pointer to a blob struct and an object `m`: the members are decoded into the
struct pointed at. The struct is the one just allocated, so its `URLs` slice has
no backing array yet. The key-decrypted structs are never decoded into; their
only wire fields are those of the shared record. -/
def decodeBlobMembers (blob : Blob) (members : List (String × JSON)) : Blob × Option GoError :=
  match blob with
  | .noncrypted b =>
      let r := decodeMembers NoncryptedBlob.step b members
      (.noncrypted r.1, r.2)
  | .encryptedBlobNew b =>
      let r := decodeMembers encryptedBlobNew.step b members
      (.encryptedBlobNew r.1, r.2)
  | .encryptedBlobCompat b =>
      let r := decodeMembers encryptedBlobCompat.step (b, []) members
      (.encryptedBlobCompat r.1.1, r.2)
  | .encryptedConfigNew c =>
      let r := decodeMembers encryptedConfigNew.step c members
      (.encryptedConfigNew r.1, r.2)
  | .encryptedConfigCompat c =>
      let r := decodeMembers encryptedConfigCompat.step (c, []) members
      (.encryptedConfigCompat r.1.1, r.2)
  | .keyDecrypted k => (.keyDecrypted k, none)

/-- The function `unmarshalLayer`. The first component is the returned `blob`
(`none` is the nil interface), the second the returned `err`. On `null` the
map stays empty and the second `json.Unmarshal` resets `blob` to nil. -/
def unmarshalLayer (m : JSON) : Option Blob × Option GoError :=
  match unmarshalRawMap m with
  | .error e => (none, some (.withStack e))
  | .ok blobMap =>
      match m with
      | .obj members =>
          let r := decodeBlobMembers (layerTemplate blobMap) members
          (some r.1, r.2.map GoError.withStack)
      | _ => (none, none)

/-- The function `unmarshalConfig`; it differs from `unmarshalLayer` in the
structs it allocates and in returning the first error unwrapped. -/
def unmarshalConfig (m : JSON) : Option Blob × Option GoError :=
  match unmarshalRawMap m with
  | .error e => (none, some e)
  | .ok blobMap =>
      match m with
      | .obj members =>
          let r := decodeBlobMembers (configTemplate blobMap) members
          (some r.1, r.2.map GoError.withStack)
      | _ => (none, none)

/-- The loop of `unmarshalLayers` over the raw elements: `layers` has the
length of the input from the start, and the loop stops after the first error,
leaving the remaining entries nil. -/
def unmarshalLayersLoop : List JSON → List (Option Blob) × Option GoError
  | [] => ([], none)
  | j :: js =>
      let r := unmarshalLayer j
      match r.2 with
      | some e => (r.1 :: js.map (fun _ => none), some e)
      | none =>
          let rs := unmarshalLayersLoop js
          (r.1 :: rs.1, rs.2)

/-- The function `unmarshalLayers`: an array is split into raw elements,
`null` gives no element, anything else is a type error. -/
def unmarshalLayers (v : JSON) : List (Option Blob) × Option GoError :=
  match v with
  | .null => ([], none)
  | .arr items => unmarshalLayersLoop items
  | _ => ([], some (.withStack (typeError v "[]json.RawMessage")))

/-- Modelled from the spec: the struct `ImageManifest` is declared outside the
files under study; it holds the schema version, the top-level media type, one
config blob and the ordered layer blobs, under the wire keys `schemaVersion`,
`mediaType`, `config`, `layers`. -/
structure ImageManifest where
  SchemaVersion : Int
  MediaType : String
  Config : Option Blob
  Layers : List (Option Blob)
  deriving DecidableEq, Repr

/-- The body of the `switch k` in `ImageManifest.UnmarshalJSON`: the manifest
after the assignment and the error of that case. -/
def ImageManifest.visit (m : ImageManifest) (k : String) (v : JSON) :
    ImageManifest × Option GoError :=
  if k = "mediaType" then
    let r := decodeString m.MediaType v
    ({ m with MediaType := r.1 }, r.2)
  else if k = "schemaVersion" then
    let r := decodeInt64 "int" m.SchemaVersion v
    ({ m with SchemaVersion := r.1 }, r.2)
  else if k = "config" then
    let r := unmarshalConfig v
    ({ m with Config := r.1 }, r.2)
  else if k = "layers" then
    let r := unmarshalLayers v
    ({ m with Layers := r.1 }, r.2)
  else (m, none)

/-- The loop `for k, v := range manifestMap` run over the entries in a given
order; it returns at the first error. -/
def ImageManifest.range (m : ImageManifest) : List (String × JSON) → ImageManifest × Option GoError
  | [] => (m, none)
  | kv :: rest =>
      let r := m.visit kv.1 kv.2
      match r.2 with
      | some e => (r.1, some (.withStack e))
      | none => ImageManifest.range r.1 rest

/-- The method `ImageManifest.UnmarshalJSON`: the receiver after the call, and
the returned error. Go leaves the iteration order of a map unspecified, so the
order in which the loop meets the entries is the argument `order`; it is
admissible when it is a permutation of the entries of the map
(`VisitOrder`). -/
def ImageManifest.UnmarshalJSON (m : ImageManifest) (data : JSON)
    (order : List (String × JSON)) : ImageManifest × Option GoError :=
  match unmarshalRawMap data with
  | .error e => (m, some (.withStack e))
  | .ok _ => m.range order

/-- The orders in which the loop of `UnmarshalJSON` may meet the entries of the
map decoded from `data`. -/
def VisitOrder (data : JSON) (order : List (String × JSON)) : Prop :=
  ∃ manifestMap, unmarshalRawMap data = .ok manifestMap ∧ order.Perm manifestMap

/-! ## The manifest codec: encoding (`manifest_json.go`) -/

/-- The embedded `*NoncryptedBlob` of a blob (the struct itself for a plain
blob); the promoted getters go through it. -/
def Blob.shared : Blob → Option NoncryptedBlob
  | .noncrypted b => some b
  | .encryptedBlobNew b => b.NoncryptedBlob
  | .encryptedBlobCompat b => b.NoncryptedBlob
  | .encryptedConfigNew c => c.NoncryptedBlob
  | .encryptedConfigCompat c => c.NoncryptedBlob
  | .keyDecrypted (.blob b) => b.NoncryptedBlob
  | .keyDecrypted (.config c) => c.NoncryptedBlob

/-- Modelled from the spec: the getter `GetDigest` is declared outside the
files under study; it returns the digest of the shared record. -/
def Blob.GetDigest (b : Blob) : Outcome String :=
  match b.shared with
  | some s => .ok s.Digest
  | none => .fault nilDeref

/-- Modelled from the spec: the getter `GetSize` returns the size of the
shared record. -/
def Blob.GetSize (b : Blob) : Outcome Int :=
  match b.shared with
  | some s => .ok s.Size
  | none => .fault nilDeref

/-- Modelled from the spec: the getter `GetMediaType` returns the media type
of the shared record. -/
def Blob.GetMediaType (b : Blob) : Outcome String :=
  match b.shared with
  | some s => .ok s.MediaType
  | none => .fault nilDeref

/-- The call `json.Marshal` on an `EnCrypto`. -/
def marshalEnCrypto (e : EnCrypto) : JSON :=
  .obj [("algos", .str e.Algos), ("key", .str e.EncKey)]

/-- The call `json.Marshal` on a `[]string`: the nil slice is `null`. -/
def marshalStringSlice : Option (List String) → JSON
  | none => .null
  | some urls => .arr (urls.map JSON.str)

/-- The members of the local struct `Layer`, in field order. -/
def layerMembers (digest mediaType : String) (size : Int) : List (String × JSON) :=
  [("digest", .str digest), ("mediaType", .str mediaType), ("size", .int size)]

/-- The function `marshalBlob`. Calling a getter on the nil interface, or
through a nil embedded pointer, and dereferencing a nil `*EnCrypto`, stop the
program. -/
def marshalBlob (config : Option Blob) : Outcome JSON :=
  match config with
  | none => .fault nilDeref
  | some blob =>
      match blob.GetDigest, blob.GetSize, blob.GetMediaType with
      | .ok digest, .ok size, .ok mediaType =>
          let layer := layerMembers digest mediaType size
          match blob with
          | .encryptedConfigNew b =>
              match b.EnCrypto with
              | some e => .ok (.obj (layer ++ [("crypto", marshalEnCrypto e)]))
              | none => .fault nilDeref
          | .encryptedConfigCompat b => .ok (.obj (layer ++ [("urls", marshalStringSlice b.URLs)]))
          | .encryptedBlobNew b =>
              match b.EnCrypto with
              | some e => .ok (.obj (layer ++ [("crypto", marshalEnCrypto e)]))
              | none => .fault nilDeref
          | .encryptedBlobCompat b => .ok (.obj (layer ++ [("urls", marshalStringSlice b.URLs)]))
          | _ => .ok (.obj layer)
      | _, _, _ => .fault nilDeref

/-- The function `marshalLayers`: one raw message per layer, in order. -/
def marshalLayers : List (Option Blob) → Outcome (List JSON)
  | [] => .ok []
  | l :: ls =>
      match marshalBlob l with
      | .ok j =>
          match marshalLayers ls with
          | .ok js => .ok (j :: js)
          | .error e => .error e
          | .fault msg => .fault msg
      | .error e => .error e
      | .fault msg => .fault msg

/-- The method `ImageManifest.MarshalJSON`: the fields promoted from the alias,
then `config` and `layers` from the two raw fields that shadow them. -/
def ImageManifest.MarshalJSON (m : ImageManifest) : Outcome JSON :=
  match marshalBlob m.Config with
  | .error e => .error (.withStack e)
  | .fault msg => .fault msg
  | .ok config =>
      match marshalLayers m.Layers with
      | .error e => .error (.withStack e)
      | .fault msg => .fault msg
      | .ok layers =>
          .ok (.obj [("schemaVersion", .int m.SchemaVersion), ("mediaType", .str m.MediaType),
            ("config", config), ("layers", .arr layers)])

/-! ## Encrypted blobs (`encryptedBlob.go`) -/

/-- The fields of `crypto.Opts` set in `cmd/root.go`. -/
structure Opts where
  Algos : String
  Compat : Bool
  deriving DecidableEq, Repr

/-- A parsed URL, reduced to the pairs of its query string in order. -/
structure URL where
  query : List (String × String)
  deriving DecidableEq, Repr

/-- The call `u.Query().Get(key)`: the first value of `key`, or the empty
string. -/
def URL.queryGet (u : URL) (key : String) : String :=
  match u.query.find? (fun kv => kv.1 == key) with
  | some kv => kv.2
  | none => ""

/-- Modelled from the spec: the constant `AlgosKey` is declared outside the
files under study; the compat URL carries the algorithm as the query parameter
`algos`. -/
def AlgosKey : String := "algos"

/-- Modelled from the spec: the constant `KeyKey` is declared outside the files
under study; the compat URL carries the key ciphertext as the query parameter
`key`. -/
def KeyKey : String := "key"

/-- The algorithm identifier `crypto.Pbkdf2Aes256Gcm`. -/
def Pbkdf2Aes256Gcm : String := "PBKDF2-AES256-GCM"

/-- Modelled from the spec: the function `crypto.ValidateAlgos` is declared
outside the files under study; the algorithm set is closed and enumerated,
`PBKDF2-AES256-GCM` being its only member, and an unknown identifier produces
the error "unknown algorithm". -/
def ValidateAlgos (algos : String) : Except GoError String :=
  if algos = Pbkdf2Aes256Gcm then .ok algos else .error (.message "unknown algorithm")

/-- The collaborators of the blob transitions that are not part of the files
under study. `σ` is the state they read and change (passphrase prompt, random
source, files), `δ` stands for the interface `DecryptedBlob`.

* `Parse` is `net/url.Parse` followed by the parsing of the query string;
* `DecryptKey` is the package-level `DecryptKey(e EnCrypto, opts)`: the unwrap
  of the data key under the passphrase-derived key;
* `DecryptFile` is the method `DecryptFile(opts, outname)` of a key-decrypted
  blob: the streaming decryption of the file. -/
structure Collab (σ δ : Type) where
  Parse : String → Except GoError URL
  DecryptKey : EnCrypto → Opts → σ → Outcome DeCrypto × σ
  DecryptFile : KeyDecryptedBlob → Opts → String → σ → Outcome δ × σ

/-- The function `newEncrypto`: the key object read from the first URL. -/
def newEncrypto {σ δ : Type} (c : Collab σ δ) (urls : Option (List String)) :
    Except GoError EnCrypto :=
  match urls.getD [] with
  | [] => .error (.message "missing encryption key")
  | first :: _ =>
      match c.Parse first with
      | .error e => .error (.withStack e)
      | .ok u =>
          match ValidateAlgos (u.queryGet AlgosKey) with
          | .error e => .error e
          | .ok algos => .ok ⟨algos, u.queryGet KeyKey⟩

/-- The method `(*encryptedBlobNew).DecryptKey`. -/
def encryptedBlobNew.DecryptKey {σ δ : Type} (c : Collab σ δ) (eb : encryptedBlobNew)
    (opts : Opts) (s : σ) : Outcome KeyDecryptedBlob × σ :=
  match eb.EnCrypto with
  | none => (.fault nilDeref, s)
  | some ek =>
      match c.DecryptKey ek opts s with
      | (.ok dk, s1) => (.ok (.blob ⟨eb.NoncryptedBlob, some dk⟩), s1)
      | (.error e, s1) => (.error (.withStack e), s1)
      | (.fault msg, s1) => (.fault msg, s1)

/-- The method `(*encryptedBlobNew).DecryptBlob`. -/
def encryptedBlobNew.DecryptBlob {σ δ : Type} (c : Collab σ δ) (eb : encryptedBlobNew)
    (opts : Opts) (outname : String) (s : σ) : Outcome δ × σ :=
  match eb.DecryptKey c opts s with
  | (.ok kb, s1) => c.DecryptFile kb opts outname s1
  | (.error e, s1) => (.error e, s1)
  | (.fault msg, s1) => (.fault msg, s1)

/-- The method `(*encryptedBlobCompat).DecryptBlob`. -/
def encryptedBlobCompat.DecryptBlob {σ δ : Type} (c : Collab σ δ) (e : encryptedBlobCompat)
    (opts : Opts) (outname : String) (s : σ) : Outcome δ × σ :=
  match newEncrypto c e.URLs with
  | .error err => (.error err, s)
  | .ok ek =>
      let eb : encryptedBlobNew := ⟨e.NoncryptedBlob, some ek⟩
      eb.DecryptBlob c opts outname s

/-- The method `(*encryptedBlobCompat).DecryptKey`. -/
def encryptedBlobCompat.DecryptKey {σ δ : Type} (c : Collab σ δ) (e : encryptedBlobCompat)
    (opts : Opts) (s : σ) : Outcome KeyDecryptedBlob × σ :=
  match newEncrypto c e.URLs with
  | .error err => (.error err, s)
  | .ok ek =>
      match c.DecryptKey ek opts s with
      | (.ok dk, s1) => (.ok (.blob ⟨e.NoncryptedBlob, some dk⟩), s1)
      | (.error err, s1) => (.error (.withStack err), s1)
      | (.fault msg, s1) => (.fault msg, s1)

/-- The method `(*encryptedConfigNew).DecryptKey`. -/
def encryptedConfigNew.DecryptKey {σ δ : Type} (c : Collab σ δ) (ec : encryptedConfigNew)
    (opts : Opts) (s : σ) : Outcome KeyDecryptedBlob × σ :=
  match ec.EnCrypto with
  | none => (.fault nilDeref, s)
  | some ek =>
      match c.DecryptKey ek opts s with
      | (.ok dk, s1) => (.ok (.config ⟨ec.NoncryptedBlob, some dk⟩), s1)
      | (.error e, s1) => (.error (.withStack e), s1)
      | (.fault msg, s1) => (.fault msg, s1)

/-- The method `(*encryptedConfigNew).DecryptBlob`. -/
def encryptedConfigNew.DecryptBlob {σ δ : Type} (c : Collab σ δ) (ec : encryptedConfigNew)
    (opts : Opts) (outname : String) (s : σ) : Outcome δ × σ :=
  match ec.DecryptKey c opts s with
  | (.ok kc, s1) => c.DecryptFile kc opts outname s1
  | (.error e, s1) => (.error e, s1)
  | (.fault msg, s1) => (.fault msg, s1)

/-- The method `(*encryptedConfigCompat).DecryptBlob`. -/
def encryptedConfigCompat.DecryptBlob {σ δ : Type} (c : Collab σ δ) (e : encryptedConfigCompat)
    (opts : Opts) (outname : String) (s : σ) : Outcome δ × σ :=
  match newEncrypto c e.URLs with
  | .error err => (.error err, s)
  | .ok ek =>
      let eb : encryptedConfigNew := ⟨e.NoncryptedBlob, some ek⟩
      eb.DecryptBlob c opts outname s

/-- The method `(*encryptedConfigCompat).DecryptKey`. -/
def encryptedConfigCompat.DecryptKey {σ δ : Type} (c : Collab σ δ) (e : encryptedConfigCompat)
    (opts : Opts) (s : σ) : Outcome KeyDecryptedBlob × σ :=
  match newEncrypto c e.URLs with
  | .error err => (.error err, s)
  | .ok ek =>
      match c.DecryptKey ek opts s with
      | (.ok dk, s1) => (.ok (.config ⟨e.NoncryptedBlob, some dk⟩), s1)
      | (.error err, s1) => (.error (.withStack err), s1)
      | (.fault msg, s1) => (.fault msg, s1)

/-! ## Vocabulary of the statements -/

/-- The value of the last member with key `k`, which is the one a map keeps. -/
def lastValue : List (String × JSON) → String → Option JSON
  | [], _ => none
  | kv :: rest, k =>
      match lastValue rest k with
      | some v => some v
      | none => if kv.1 = k then some kv.2 else none

/-- The keys of the members of an object, in document order. -/
def memberKeys (members : List (String × JSON)) : List String :=
  members.map Prod.fst

/-- The dynamic type of a non-nil `Blob` value. -/
inductive BlobType where
  | NoncryptedBlob
  | encryptedBlobNew
  | encryptedBlobCompat
  | encryptedConfigNew
  | encryptedConfigCompat
  | keyDecryptedBlob
  | keyDecryptedConfig
  deriving DecidableEq, Repr

/-- The dynamic type of a blob. -/
def Blob.type : Blob → BlobType
  | .noncrypted _ => .NoncryptedBlob
  | .encryptedBlobNew _ => .encryptedBlobNew
  | .encryptedBlobCompat _ => .encryptedBlobCompat
  | .encryptedConfigNew _ => .encryptedConfigNew
  | .encryptedConfigCompat _ => .encryptedConfigCompat
  | .keyDecrypted (.blob _) => .keyDecryptedBlob
  | .keyDecrypted (.config _) => .keyDecryptedConfig

/-- A blob object carrying both a `crypto` and a `urls` member. -/
def blobBoth : JSON :=
  .obj [("digest", .str "sha256:ab"), ("mediaType", .str "application/octet-stream"),
    ("size", .int 7),
    ("crypto", .obj [("algos", .str "PBKDF2-AES256-GCM"), ("key", .str "c2FsdA==")]),
    ("urls", .arr [.str "https://crypto.senetas.com/?algos=PBKDF2-AES256-GCM&key=c2FsdA=="])]

/-- The shared record written in `blobBoth`. -/
def sharedBoth : NoncryptedBlob :=
  ⟨"sha256:ab", "application/octet-stream", 7, ""⟩

/-- A blob object carrying a `crypto` member only. -/
def blobCrypto : JSON :=
  .obj [("digest", .str "sha256:ab"), ("mediaType", .str "application/octet-stream"),
    ("size", .int 7),
    ("crypto", .obj [("algos", .str "PBKDF2-AES256-GCM"), ("key", .str "c2FsdA==")])]

/-- Whether the blob is an EncryptedNew struct (layer or config). -/
def Blob.isEncryptedNew : Blob → Bool
  | .encryptedBlobNew _ => true
  | .encryptedConfigNew _ => true
  | _ => false

/-- Whether the blob is an EncryptedCompat struct (layer or config). -/
def Blob.isEncryptedCompat : Blob → Bool
  | .encryptedBlobCompat _ => true
  | .encryptedConfigCompat _ => true
  | _ => false

/-- The `*EnCrypto` of an EncryptedNew struct (`none`: nil, or another variant). -/
def Blob.EnCrypto : Blob → Option EnCrypto
  | .encryptedBlobNew b => b.EnCrypto
  | .encryptedConfigNew c => c.EnCrypto
  | _ => none

/-- The `URLs` slice of an EncryptedCompat struct (`none`: nil, or another
variant). -/
def Blob.URLs : Blob → Option (List String)
  | .encryptedBlobCompat b => b.URLs
  | .encryptedConfigCompat c => c.URLs
  | _ => none

/-- The blobs `marshalBlob` can read without a nil dereference: the embedded
`*NoncryptedBlob` is set and, in an EncryptedNew struct, so is the
`*EnCrypto`. -/
def Blob.encodable (b : Blob) : Bool :=
  b.shared.isSome && (!b.isEncryptedNew || b.EnCrypto.isSome)

/-- An EncryptedCompat layer whose `URLs` slice is nil, as `unmarshalLayer`
returns it for a blob object with `"urls": null`. -/
def compatNilURLs : Blob :=
  .encryptedBlobCompat ⟨some sharedBoth, none⟩

/-- An EncryptedNew layer with its key object. -/
def layerNew : Blob :=
  .encryptedBlobNew ⟨some sharedBoth, some ⟨"PBKDF2-AES256-GCM", "c2FsdA=="⟩⟩

/-- An EncryptedNew config with its key object. -/
def configNew : Blob :=
  .encryptedConfigNew ⟨some sharedBoth, some ⟨"PBKDF2-AES256-GCM", "c2FsdA=="⟩⟩

/-- A collaborator set over a counter: every key unwrap adds 1 to the state and
every file decryption adds 10, so that a state left at its initial value means
that neither was called. -/
def countingCollab : Collab Nat Unit where
  Parse := fun _ => .ok ⟨[]⟩
  DecryptKey := fun _ _ n => (.ok ⟨"PBKDF2-AES256-GCM", [], []⟩, n + 1)
  DecryptFile := fun _ _ _ n => (.ok (), n + 10)

/-- The keys handled by the `switch` of `ImageManifest.UnmarshalJSON`. -/
def knownKey (k : String) : Bool :=
  k == "mediaType" || k == "schemaVersion" || k == "config" || k == "layers"

/-- The receiver after the entries of a list were met, errors set aside. -/
def ImageManifest.visitAll (m : ImageManifest) (entries : List (String × JSON)) : ImageManifest :=
  entries.foldl (fun acc kv => (acc.visit kv.1 kv.2).1) m

/-- Whether an integer fits an `int64`. -/
def isInt64 (n : Int) : Bool :=
  decide (minInt64 ≤ n) && decide (n ≤ maxInt64)

/-- The shared record as it comes back from the wire: the file name is not
transmitted. -/
def NoncryptedBlob.wire (b : NoncryptedBlob) : NoncryptedBlob :=
  { b with Filename := "" }

/-- A blob object with `"urls": []`. -/
def emptyURLsBlob (digest mediaType : String) (size : Int) : JSON :=
  .obj [("digest", .str digest), ("mediaType", .str mediaType), ("size", .int size),
    ("urls", .arr [])]

/-- The media type of a Docker image manifest, schema 2. -/
def manifestV2 : String := "application/vnd.docker.distribution.manifest.v2+json"

/-- A manifest whose config and only layer are blob objects with `"urls": []`. -/
def emptyURLsManifest (digest mediaType : String) (size : Int) : JSON :=
  .obj [("schemaVersion", .int 2), ("mediaType", .str manifestV2),
    ("config", emptyURLsBlob digest mediaType size),
    ("layers", .arr [emptyURLsBlob digest mediaType size])]

/-- A blob as it comes back from the wire: the file name of its shared record
is not transmitted. -/
def Blob.wire : Blob → Blob
  | .noncrypted b => .noncrypted b.wire
  | .encryptedBlobNew b => .encryptedBlobNew ⟨b.NoncryptedBlob.map NoncryptedBlob.wire, b.EnCrypto⟩
  | .encryptedBlobCompat b =>
      .encryptedBlobCompat ⟨b.NoncryptedBlob.map NoncryptedBlob.wire, b.URLs⟩
  | .encryptedConfigNew c =>
      .encryptedConfigNew ⟨c.NoncryptedBlob.map NoncryptedBlob.wire, c.EnCrypto⟩
  | .encryptedConfigCompat c =>
      .encryptedConfigCompat ⟨c.NoncryptedBlob.map NoncryptedBlob.wire, c.URLs⟩
  | .keyDecrypted k => .keyDecrypted k

/-- The layers of a manifest in wire form: a plain blob, an `encryptedBlobNew`
or an `encryptedBlobCompat`, with its pointers set and a size that fits
`int64` (which the Go type of the field guarantees). -/
def Blob.validLayer : Blob → Bool
  | .noncrypted b => isInt64 b.Size
  | .encryptedBlobNew ⟨some b, some _⟩ => isInt64 b.Size
  | .encryptedBlobCompat ⟨some b, _⟩ => isInt64 b.Size
  | _ => false

/-- The configs for which the round trip holds: a plain blob or an
`encryptedConfigCompat`, with its pointer set and a size that fits `int64`. -/
def Blob.validCompatConfig : Blob → Bool
  | .noncrypted b => isInt64 b.Size
  | .encryptedConfigCompat ⟨some b, _⟩ => isInt64 b.Size
  | _ => false

/-- A manifest as it comes back from the wire. -/
def ImageManifest.wire (m : ImageManifest) : ImageManifest :=
  { m with Config := m.Config.map Blob.wire, Layers := m.Layers.map (Option.map Blob.wire) }

/-- A manifest with an EncryptedNew config and one EncryptedNew layer, as the
push path builds it outside compat mode. -/
def manifestNew : ImageManifest :=
  ⟨2, manifestV2, some configNew, [some layerNew]⟩

/-- The JSON that `MarshalJSON` writes for `manifestNew`. -/
def manifestNewJSON : JSON :=
  .obj [("schemaVersion", .int 2),
    ("mediaType", .str manifestV2),
    ("config", blobCrypto), ("layers", .arr [blobCrypto])]

/-- The entries of the map decoded from `manifestNewJSON`, in document order. -/
def manifestNewEntries : List (String × JSON) :=
  [("schemaVersion", .int 2),
    ("mediaType", .str manifestV2),
    ("config", blobCrypto), ("layers", .arr [blobCrypto])]

/-- The zero manifest, receiver of a decoding. -/
def ImageManifest.zero : ImageManifest := ⟨0, "", none, []⟩

/-- A manifest object with the two scalar keys. -/
def scalarMembers : List (String × JSON) :=
  [("schemaVersion", .int 2), ("mediaType", .str "application/vnd.oci.image.manifest.v1+json")]

/-! ## Sealing JSON values (`crypto/json.go`) -/

/-- A Go `[]byte`. -/
abbrev Bytes := List (Fin 256)

/-- Modelled from the spec: the function `utils.Concat` is declared outside the
files under study; the sealed key object is the concatenation
salt‖nonce‖ciphertext‖tag, so `Concat` joins its arguments in order. -/
def Concat (parts : List Bytes) : Bytes :=
  parts.flatten

/-- The library functions `crypto/json.go` calls on values of type `V` (the
dynamic type behind `val interface{}`):

* `Marshal` is `json.Marshal`, `Unmarshal` is `json.Unmarshal(plaintext, val)`
  given the target before the call and returning the target after it;
* `Seal` and `Open` are the methods of the AEAD returned by `cipher.NewGCM` on
  the AES block of a key, with arguments key, nonce, text, additional data;
* `EncodeToString` and `DecodeString` are those of `base64.URLEncoding`. -/
structure JSONCrypto (V : Type) where
  Marshal : V → Except GoError Bytes
  Unmarshal : Bytes → V → Except GoError V
  Seal : Bytes → Bytes → Bytes → Bytes → Bytes
  Open : Bytes → Bytes → Bytes → Bytes → Except GoError Bytes
  EncodeToString : Bytes → String
  DecodeString : String → Except GoError Bytes

/-- The call `aes.NewCipher(key)`: it fails unless the key has 16, 24 or 32
bytes. -/
def NewCipher (key : Bytes) : Except GoError Unit :=
  if key.length = 16 ∨ key.length = 24 ∨ key.length = 32 then .ok ()
  else .error (.message ("crypto/aes: invalid key size " ++ toString key.length))

/-- The function `EncryptJSON`. `draw` is the outcome of `rand.Read(nonce)`:
an error, or the content of the 12-byte buffer. `cipher.NewGCM` does not fail
on an AES block. -/
def EncryptJSON {V : Type} (lib : JSONCrypto V) (val : V) (key salt : Bytes)
    (draw : Except GoError Bytes) : Outcome String :=
  match lib.Marshal val with
  | .error e => .error (.withStack e)
  | .ok plaintext =>
      match NewCipher key with
      | .error e => .error (.withStack e)
      | .ok _ =>
          match draw with
          | .error e => .error (.withStack e)
          | .ok nonce =>
              let ciphertext := lib.Seal key nonce plaintext salt
              let saltnoncecipher := Concat [salt, nonce, ciphertext]
              .ok (lib.EncodeToString saltnoncecipher)

/-- Text of the run-time fault raised by a slice expression out of range. -/
def sliceBounds : String := "slice bounds out of range"

/-- The function `DecryptJSON`: the target after the call, an error, or a
run-time fault. The slice expressions `decoded[:16]`, `decoded[16:28]` and
`decoded[28:]` are not guarded: the first two are checked against the capacity
of `decoded`, the third against its length, so the three of them go through
exactly when `decoded` has at least 28 bytes. -/
def DecryptJSON {V : Type} (lib : JSONCrypto V) (ciphertext : String) (key : Bytes) (val : V) :
    Outcome V :=
  match lib.DecodeString ciphertext with
  | .error e => .error (.withStack e)
  | .ok decoded =>
      if decoded.length < 28 then .fault sliceBounds
      else
        let ad := decoded.take 16
        let nonce := (decoded.drop 16).take 12
        let cjstr := decoded.drop 28
        match NewCipher key with
        | .error e => .error (.withStack e)
        | .ok _ =>
            match lib.Open key nonce cjstr ad with
            | .error e => .error (.withStack e)
            | .ok plaintext =>
                match lib.Unmarshal plaintext val with
                | .error e => .error (.withStack e)
                | .ok v => .ok v

/-- What the libraries guarantee: opening what was sealed under the same key,
nonce and additional data returns the plaintext; the seal is 16 bytes (the
tag) longer than the plaintext; decoding an encoded byte string returns it. -/
structure JSONCrypto.Lawful {V : Type} (lib : JSONCrypto V) : Prop where
  open_seal : ∀ key nonce plaintext ad, key.length = 32 → nonce.length = 12 →
    lib.Open key nonce (lib.Seal key nonce plaintext ad) ad = .ok plaintext
  seal_length : ∀ key nonce plaintext ad,
    (lib.Seal key nonce plaintext ad).length = plaintext.length + 16
  decode_encode : ∀ bs, lib.DecodeString (lib.EncodeToString bs) = .ok bs

/-- A text encoding of bytes used to exhibit the library laws: each byte `b` is
written as `b` letters `x` followed by a comma. -/
def unaryEncode : Bytes → List Char
  | [] => []
  | b :: bs => List.replicate b.val 'x' ++ ',' :: unaryEncode bs

/-- The decoder of `unaryEncode`; `n` counts the letters read since the last
comma. -/
def unaryDecode : List Char → Nat → Option Bytes
  | [], n => if n = 0 then some [] else none
  | c :: cs, n =>
      if c = 'x' then unaryDecode cs (n + 1)
      else if c = ',' then
        if h : n < 256 then (unaryDecode cs 0).map (fun bs => (⟨n, h⟩ : Fin 256) :: bs)
        else none
      else none

/-- A stand-in for the libraries that satisfies their laws: values are byte
strings encoded as themselves, the seal appends a 16-byte tag of zeros, and
the text encoding is `unaryEncode`. -/
def toyCrypto : JSONCrypto Bytes where
  Marshal := fun v => .ok v
  Unmarshal := fun bs _ => .ok bs
  Seal := fun _ _ plaintext _ => plaintext ++ List.replicate 16 0
  Open := fun _ _ ciphertext _ =>
    if 16 ≤ ciphertext.length then .ok (ciphertext.take (ciphertext.length - 16))
    else .error (.message "cipher: message authentication failed")
  EncodeToString := fun bs => String.mk (unaryEncode bs)
  DecodeString := fun s =>
    match unaryDecode s.data 0 with
    | some bs => .ok bs
    | none => .error (.message "illegal base64 data")

/-- A 32-byte key. -/
def key32 : Bytes := List.replicate 32 7

/-- A 16-byte salt. -/
def salt16 : Bytes := List.replicate 16 1

/-- A 12-byte nonce. -/
def nonce12 : Bytes := List.replicate 12 2

/-- A data key of three bytes. -/
def dataKey3 : Bytes := [3, 0, 255]

/-! ## Vocabulary of the blob transitions and of the command line -/

/-- The composition the spec names for `DecryptBlob`: after `DecryptKey`, an
error or a fault is passed on and `DecryptFile` is not run; a key-decrypted
blob is handed to `DecryptFile`, in the state `DecryptKey` left. -/
def decryptKeyThenFile {σ δ : Type} (c : Collab σ δ) (r : Outcome KeyDecryptedBlob × σ)
    (opts : Opts) (outname : String) : Outcome δ × σ :=
  match r with
  | (.ok kb, s1) => c.DecryptFile kb opts outname s1
  | (.error e, s1) => (.error e, s1)
  | (.fault msg, s1) => (.fault msg, s1)

/-- A compat URL carrying the algorithm and the key ciphertext. -/
def compatURL : String :=
  "https://crypto.senetas.com/?algos=PBKDF2-AES256-GCM&key=c2FsdA=="

/-- A compat URL without the `algos` parameter. -/
def compatURLNoAlgos : String :=
  "https://crypto.senetas.com/?key=c2FsdA=="

/-- Collaborators that count their calls, like `countingCollab`, and parse the
two example URLs. -/
def parsingCollab : Collab Nat Unit where
  Parse := fun raw =>
    if raw = compatURL then .ok ⟨[("algos", "PBKDF2-AES256-GCM"), ("key", "c2FsdA==")]⟩
    else if raw = compatURLNoAlgos then .ok ⟨[("key", "c2FsdA==")]⟩
    else .error (.message "parse: invalid URL")
  DecryptKey := fun ek _ n => (.ok ⟨ek.Algos, [1, 2, 3], [4]⟩, n + 1)
  DecryptFile := fun _ _ _ n => (.ok (), n + 10)

/-- Modelled from the spec: the type `utils.Error` is declared outside the
files under study; `Execute` reads its field `HasStack`, which tells whether
the error carries a stack trace. -/
structure UtilsError where
  HasStack : Bool
  deriving DecidableEq, Repr

/-- The value `errors.Cause(err)`: a `utils.Error`, or an error of another
type. -/
inductive Cause where
  | utils (e : UtilsError)
  | other
  deriving DecidableEq, Repr

/-- An error returned by the root command, with its cause. -/
structure CmdError where
  text : String
  cause : Cause
  deriving DecidableEq, Repr

/-- The two formats `Execute` prints an error with. -/
inductive Verb where
  | plusV
  | v
  deriving DecidableEq, Repr

/-- What the process has done: the fatal messages logged, and the exit status
once `os.Exit` was called. -/
structure Process where
  logged : List (Verb × CmdError)
  exit : Option Nat
  deriving DecidableEq, Repr

/-- A process that has logged nothing and is running. -/
def Process.start : Process := ⟨[], none⟩

/-- The call `log.Fatal().Msgf(verb, err)`: the message is written and the
process exits with status 1; nothing runs in a process that has exited. -/
def Process.Fatal (p : Process) (verb : Verb) (err : CmdError) : Process :=
  match p.exit with
  | some _ => p
  | none => ⟨p.logged ++ [(verb, err)], some 1⟩

/-- The type assertion `c, ok := errors.Cause(err).(utils.Error)`. -/
def assertUtilsError (err : CmdError) : UtilsError × Bool :=
  match err.cause with
  | .utils e => (e, true)
  | .other => (⟨false⟩, false)

/-- The function `Execute` of `cmd/root.go`, given the flag `debug` and what
`rootCmd.Execute()` returned (`none`: no error). -/
def Execute (debug : Bool) (result : Option CmdError) : Process :=
  match result with
  | none => Process.start
  | some err =>
      let r := assertUtilsError err
      let p := if debug && (!r.2 || r.1.HasStack) then Process.start.Fatal .plusV err
        else Process.start
      p.Fatal .v err

/-- Whether an error carries a stack: its cause is not a `utils.Error`, or is
one with `HasStack` set. -/
def CmdError.carriesStack (err : CmdError) : Bool :=
  match err.cause with
  | .utils e => e.HasStack
  | .other => true

/-! ## Vocabulary of the order of the map iteration -/

/-- Whether the decoder that `UnmarshalJSON` applies to the value `v` of the
key `k` returns no error (always so for a key the `switch` does not handle). -/
def valueDecodes (k : String) (v : JSON) : Bool :=
  (ImageManifest.zero.visit k v).2.isNone

/-- A layer object whose `crypto` member is `null`. -/
def blobCryptoNull : JSON :=
  .obj [("digest", .str "sha256:ab"), ("mediaType", .str "application/octet-stream"),
    ("size", .int 7), ("crypto", .null)]

/-- A layer object whose `crypto` member is the empty object. -/
def blobCryptoEmpty : JSON :=
  .obj [("digest", .str "sha256:ab"), ("mediaType", .str "application/octet-stream"),
    ("size", .int 7), ("crypto", .obj [])]

/-! ## Vocabulary of the errors of the decoder -/

/-- Whether the error is a `*json.UnmarshalTypeError`, possibly wrapped by
`errors.WithStack`. -/
def GoError.isTypeError : GoError → Bool
  | .unmarshalType _ _ => true
  | .withStack cause => cause.isTypeError
  | .message _ => false

/-- The returned error, when there is one, is a JSON type error. -/
def onlyTypeError (err : Option GoError) : Prop :=
  ∀ e, err = some e → e.isTypeError = true

/-! ## Properties of the raw map -/

theorem RawMap.keys_insert (m : RawMap) (k : String) (v : JSON) :
    memberKeys (m.insert k v) = if k ∈ memberKeys m then memberKeys m else memberKeys m ++ [k] := by
  induction m with
  | nil => simp [RawMap.insert, memberKeys]
  | cons kv rest ih =>
      unfold memberKeys at ih ⊢
      by_cases h : kv.1 = k
      · simp [RawMap.insert, h]
      · have h2 : ¬ k = kv.1 := fun e => h e.symm
        simp only [RawMap.insert, h, if_false, List.map_cons, ih, List.mem_cons, h2, false_or]
        split_ifs <;> simp

theorem RawMap.nodup_insert (m : RawMap) (k : String) (v : JSON)
    (h : (memberKeys m).Nodup) : (memberKeys (m.insert k v)).Nodup := by
  rw [RawMap.keys_insert]
  split_ifs with hk
  · exact h
  · exact List.Nodup.append h (List.nodup_singleton k) (by simpa using hk)

theorem RawMap.mem_insert (m : RawMap) (k : String) (v : JSON) (h : (memberKeys m).Nodup)
    (k1 : String) (v1 : JSON) :
    (k1, v1) ∈ m.insert k v ↔ (k1 = k ∧ v1 = v) ∨ (k1 ≠ k ∧ (k1, v1) ∈ m) := by
  induction m with
  | nil => simp [RawMap.insert]
  | cons kv rest ih =>
      obtain ⟨k0, v0⟩ := kv
      simp only [memberKeys, List.map_cons, List.nodup_cons] at h
      have ih1 := ih h.2
      by_cases hk : k0 = k
      · subst hk
        have hnot : ∀ w, (k0, w) ∉ rest := fun w hw => h.1 (List.mem_map_of_mem Prod.fst hw)
        simp only [RawMap.insert, if_true, List.mem_cons, Prod.mk.injEq]
        constructor
        · rintro (⟨a, b⟩ | hr)
          · exact Or.inl ⟨a, b⟩
          · by_cases e : k1 = k0
            · subst e; exact absurd hr (hnot _)
            · exact Or.inr ⟨e, Or.inr hr⟩
        · rintro (⟨a, b⟩ | ⟨a, b⟩)
          · exact Or.inl ⟨a, b⟩
          · rcases b with b | b
            · exact absurd b.1 a
            · exact Or.inr b
      · simp only [RawMap.insert, hk, if_false, List.mem_cons, Prod.mk.injEq, ih1]
        constructor
        · rintro (⟨a, b⟩ | hr)
          · subst a; exact Or.inr ⟨hk, Or.inl ⟨rfl, b⟩⟩
          · rcases hr with hr | hr
            · exact Or.inl hr
            · exact Or.inr ⟨hr.1, Or.inr hr.2⟩
        · rintro (⟨a, b⟩ | ⟨a, b⟩)
          · exact Or.inr (Or.inl ⟨a, b⟩)
          · rcases b with b | b
            · exact Or.inl b
            · exact Or.inr (Or.inr ⟨a, b⟩)

theorem RawMap.foldl_insert (l : List (String × JSON)) :
    ∀ acc : RawMap, (memberKeys acc).Nodup →
      (memberKeys (l.foldl (fun m kv => RawMap.insert m kv.1 kv.2) acc)).Nodup ∧
      ∀ k v, (k, v) ∈ l.foldl (fun m kv => RawMap.insert m kv.1 kv.2) acc ↔
        (lastValue l k = some v ∨ (lastValue l k = none ∧ (k, v) ∈ acc)) := by
  induction l with
  | nil => intro acc h; simp [lastValue, h]
  | cons kv rest ih =>
      intro acc h
      have h1 := RawMap.nodup_insert acc kv.1 kv.2 h
      obtain ⟨n, e⟩ := ih (acc.insert kv.1 kv.2) h1
      refine ⟨n, fun k v => ?_⟩
      rw [List.foldl_cons, e k v, RawMap.mem_insert acc kv.1 kv.2 h]
      cases hr : lastValue rest k with
      | some w => simp [lastValue, hr]
      | none =>
          by_cases hk : kv.1 = k
          · subst hk; simp [lastValue, hr]; exact eq_comm
          · have hk2 : ¬ k = kv.1 := fun e => hk e.symm
            simp [lastValue, hr, hk, hk2]

theorem RawMap.nodup_ofMembers (l : List (String × JSON)) :
    (memberKeys (RawMap.ofMembers l)).Nodup :=
  (RawMap.foldl_insert l [] (by simp [memberKeys])).1

theorem RawMap.mem_ofMembers (l : List (String × JSON)) (k : String) (v : JSON) :
    (k, v) ∈ RawMap.ofMembers l ↔ lastValue l k = some v := by
  have := (RawMap.foldl_insert l [] (by simp [memberKeys])).2 k v
  simpa [RawMap.ofMembers] using this

theorem lastValue_isSome (l : List (String × JSON)) (k : String) :
    (∃ v, lastValue l k = some v) ↔ k ∈ memberKeys l := by
  induction l with
  | nil => simp [lastValue, memberKeys]
  | cons kv rest ih =>
      unfold memberKeys at ih ⊢
      cases hr : lastValue rest k with
      | some w =>
          have : k ∈ List.map Prod.fst rest := ih.1 ⟨w, hr⟩
          simp [lastValue, hr, this]
      | none =>
          have hn : k ∉ List.map Prod.fst rest := fun hm => by
            obtain ⟨w, hw⟩ := ih.2 hm
            rw [hr] at hw; cases hw
          by_cases hk : kv.1 = k
          · simp [lastValue, hr, hk]
          · have hk2 : ¬ k = kv.1 := fun e => hk e.symm
            simp only [lastValue, hr, hk, if_false, List.map_cons, List.mem_cons, hk2, hn, or_self,
              iff_false, not_exists]
            intro x hx; cases hx

theorem RawMap.has_iff (m : RawMap) (k : String) : m.has k = true ↔ k ∈ memberKeys m := by
  simp [RawMap.has, memberKeys]

theorem RawMap.has_ofMembers (l : List (String × JSON)) (k : String) :
    (RawMap.ofMembers l).has k = true ↔ k ∈ memberKeys l := by
  rw [RawMap.has_iff, ← lastValue_isSome l k]
  constructor
  · intro h
    obtain ⟨⟨k1, v⟩, hm, hk⟩ := List.mem_map.1 h
    simp only at hk; subst hk
    exact ⟨v, (RawMap.mem_ofMembers l k1 v).1 hm⟩
  · rintro ⟨v, hv⟩
    exact List.mem_map.2 ⟨(k, v), (RawMap.mem_ofMembers l k v).2 hv, rfl⟩

/-! ## Variant dispatch -/

theorem decodeBlobMembers_type (b : Blob) (members : List (String × JSON)) :
    (decodeBlobMembers b members).1.type = b.type := by
  cases b with
  | keyDecrypted k => cases k <;> rfl
  | _ => rfl

theorem layerTemplate_type (members : List (String × JSON)) :
    (layerTemplate (RawMap.ofMembers members)).type =
      if "crypto" ∈ memberKeys members then BlobType.encryptedBlobNew
      else if "urls" ∈ memberKeys members then BlobType.encryptedBlobCompat
      else BlobType.NoncryptedBlob := by
  unfold layerTemplate
  by_cases h1 : "crypto" ∈ memberKeys members
  · rw [if_pos ((RawMap.has_ofMembers _ _).2 h1), if_pos h1]; rfl
  · have n1 : ¬ (RawMap.ofMembers members).has "crypto" = true :=
      fun h => h1 ((RawMap.has_ofMembers _ _).1 h)
    rw [if_neg n1, if_neg h1]
    by_cases h2 : "urls" ∈ memberKeys members
    · rw [if_pos ((RawMap.has_ofMembers _ _).2 h2), if_pos h2]; rfl
    · have n2 : ¬ (RawMap.ofMembers members).has "urls" = true :=
        fun h => h2 ((RawMap.has_ofMembers _ _).1 h)
      rw [if_neg n2, if_neg h2]; rfl

theorem configTemplate_type (members : List (String × JSON)) :
    (configTemplate (RawMap.ofMembers members)).type =
      if "crypto" ∈ memberKeys members then BlobType.encryptedConfigNew
      else if "urls" ∈ memberKeys members then BlobType.encryptedConfigCompat
      else BlobType.NoncryptedBlob := by
  unfold configTemplate
  by_cases h1 : "crypto" ∈ memberKeys members
  · rw [if_pos ((RawMap.has_ofMembers _ _).2 h1), if_pos h1]; rfl
  · have n1 : ¬ (RawMap.ofMembers members).has "crypto" = true :=
      fun h => h1 ((RawMap.has_ofMembers _ _).1 h)
    rw [if_neg n1, if_neg h1]
    by_cases h2 : "urls" ∈ memberKeys members
    · rw [if_pos ((RawMap.has_ofMembers _ _).2 h2), if_pos h2]; rfl
    · have n2 : ¬ (RawMap.ofMembers members).has "urls" = true :=
        fun h => h2 ((RawMap.has_ofMembers _ _).1 h)
      rw [if_neg n2, if_neg h2]; rfl

theorem unmarshalLayer_obj (members : List (String × JSON)) :
    unmarshalLayer (.obj members) =
      (some (decodeBlobMembers (layerTemplate (RawMap.ofMembers members)) members).1,
        (decodeBlobMembers (layerTemplate (RawMap.ofMembers members)) members).2.map
          GoError.withStack) := rfl

theorem unmarshalConfig_obj (members : List (String × JSON)) :
    unmarshalConfig (.obj members) =
      (some (decodeBlobMembers (configTemplate (RawMap.ofMembers members)) members).1,
        (decodeBlobMembers (configTemplate (RawMap.ofMembers members)) members).2.map
          GoError.withStack) := rfl

/-- The dynamic type of the blob returned for an object, from the keys of the
object. -/
theorem unmarshal_type_of_keys (members : List (String × JSON)) :
    (unmarshalLayer (.obj members)).1.map Blob.type =
        some (if "crypto" ∈ memberKeys members then BlobType.encryptedBlobNew
          else if "urls" ∈ memberKeys members then BlobType.encryptedBlobCompat
          else BlobType.NoncryptedBlob) ∧
      (unmarshalConfig (.obj members)).1.map Blob.type =
        some (if "crypto" ∈ memberKeys members then BlobType.encryptedConfigNew
          else if "urls" ∈ memberKeys members then BlobType.encryptedConfigCompat
          else BlobType.NoncryptedBlob) := by
  constructor
  · rw [unmarshalLayer_obj, Option.map_some', decodeBlobMembers_type, layerTemplate_type]
  · rw [unmarshalConfig_obj, Option.map_some', decodeBlobMembers_type, configTemplate_type]

/-- C2: for every blob JSON object, in the layers array (`unmarshalLayer`) and
in the config position (`unmarshalConfig`), the dynamic type of the returned
blob is fixed by key presence alone: the EncryptedNew struct when the object
contains the key `crypto`; otherwise the EncryptedCompat struct when it
contains `urls`; otherwise the plain `NoncryptedBlob`. This holds whether or
not a member fails to decode. -/
theorem unmarshal_variant_by_key_presence (members : List (String × JSON)) :
    (unmarshalLayer (.obj members)).1.map Blob.type =
        some (if "crypto" ∈ memberKeys members then BlobType.encryptedBlobNew
          else if "urls" ∈ memberKeys members then BlobType.encryptedBlobCompat
          else BlobType.NoncryptedBlob) ∧
      (unmarshalConfig (.obj members)).1.map Blob.type =
        some (if "crypto" ∈ memberKeys members then BlobType.encryptedConfigNew
          else if "urls" ∈ memberKeys members then BlobType.encryptedConfigCompat
          else BlobType.NoncryptedBlob) :=
  unmarshal_type_of_keys members

/-! ## Members that select no field -/

theorem decodeMembers_filter {α : Type} (step : α → String → JSON → α × Option GoError)
    (p : String × JSON → Bool)
    (hskip : ∀ st kv, p kv = false → step st kv.1 kv.2 = (st, none))
    (members : List (String × JSON)) :
    ∀ init, decodeMembers step init (members.filter p) = decodeMembers step init members := by
  induction members with
  | nil => intro init; rfl
  | cons kv rest ih =>
      intro init
      cases hp : p kv with
      | true =>
          rw [List.filter_cons_of_pos hp]
          simp only [decodeMembers, ih]
      | false =>
          rw [List.filter_cons_of_neg (by simp [hp])]
          simp only [decodeMembers, hskip init kv hp, ih, firstError]

theorem embeddedMember_urls (p : Option NoncryptedBlob) (v : JSON) :
    embeddedMember p "urls" v = none := by
  have h1 : fieldMatch "digest" "urls" = false := by decide
  have h2 : fieldMatch "mediaType" "urls" = false := by decide
  have h3 : fieldMatch "size" "urls" = false := by decide
  simp [embeddedMember, NoncryptedBlob.member, h1, h2, h3]

theorem blobNew_step_urls (b : encryptedBlobNew) (v : JSON) :
    b.step "urls" v = (b, none) := by
  have h : fieldMatch "crypto" "urls" = false := by decide
  simp [encryptedBlobNew.step, embeddedMember_urls, h]

theorem configNew_step_urls (c : encryptedConfigNew) (v : JSON) :
    c.step "urls" v = (c, none) := by
  simp [encryptedConfigNew.step, embeddedMember_urls]

/-- The members of an object other than those with key `urls`. -/
theorem memberKeys_dropUrls (members : List (String × JSON)) (k : String) (hk : k ≠ "urls") :
    k ∈ memberKeys (members.filter (fun kv => kv.1 != "urls")) ↔ k ∈ memberKeys members := by
  simp only [memberKeys, List.mem_map, List.mem_filter]
  constructor
  · rintro ⟨kv, ⟨hm, _⟩, e⟩; exact ⟨kv, hm, e⟩
  · rintro ⟨kv, hm, e⟩
    refine ⟨kv, ⟨hm, ?_⟩, e⟩
    subst e
    simpa using hk

theorem layerTemplate_of_crypto (members : List (String × JSON))
    (h : "crypto" ∈ memberKeys members) :
    layerTemplate (RawMap.ofMembers members) = .encryptedBlobNew ⟨none, none⟩ := by
  unfold layerTemplate
  rw [if_pos ((RawMap.has_ofMembers _ _).2 h)]

theorem configTemplate_of_crypto (members : List (String × JSON))
    (h : "crypto" ∈ memberKeys members) :
    configTemplate (RawMap.ofMembers members) = .encryptedConfigNew ⟨none, none⟩ := by
  unfold configTemplate
  rw [if_pos ((RawMap.has_ofMembers _ _).2 h)]

/-- C3, as the code has it: a blob JSON object that contains both a `crypto`
and a `urls` member is decoded as the EncryptedNew struct, by `unmarshalLayer`
and by `unmarshalConfig`, and its `urls` members are ignored: the returned
blob and the returned error are those of the same object without its `urls`
members. -/
theorem unmarshal_crypto_and_urls (members : List (String × JSON))
    (hcrypto : "crypto" ∈ memberKeys members) (hurls : "urls" ∈ memberKeys members) :
    (unmarshalLayer (.obj members)).1.map Blob.type = some BlobType.encryptedBlobNew ∧
      unmarshalLayer (.obj members) =
        unmarshalLayer (.obj (members.filter (fun kv => kv.1 != "urls"))) ∧
      (unmarshalConfig (.obj members)).1.map Blob.type = some BlobType.encryptedConfigNew ∧
      unmarshalConfig (.obj members) =
        unmarshalConfig (.obj (members.filter (fun kv => kv.1 != "urls"))) := by
  have _ := hurls
  have hc2 : "crypto" ∈ memberKeys (members.filter (fun kv => kv.1 != "urls")) :=
    (memberKeys_dropUrls members "crypto" (by decide)).2 hcrypto
  have key := unmarshal_type_of_keys members
  rw [if_pos hcrypto, if_pos hcrypto] at key
  refine ⟨key.1, ?_, key.2, ?_⟩
  · rw [unmarshalLayer_obj, unmarshalLayer_obj, layerTemplate_of_crypto _ hcrypto,
      layerTemplate_of_crypto _ hc2]
    simp only [decodeBlobMembers]
    rw [decodeMembers_filter encryptedBlobNew.step (fun kv => kv.1 != "urls")]
    intro st kv hp
    have e : kv.1 = "urls" := by simpa using hp
    rw [e, blobNew_step_urls]
  · rw [unmarshalConfig_obj, unmarshalConfig_obj, configTemplate_of_crypto _ hcrypto,
      configTemplate_of_crypto _ hc2]
    simp only [decodeBlobMembers]
    rw [decodeMembers_filter encryptedConfigNew.step (fun kv => kv.1 != "urls")]
    intro st kv hp
    have e : kv.1 = "urls" := by simpa using hp
    rw [e, configNew_step_urls]

/-- Witness of `unmarshal_crypto_and_urls` at `blobBoth`. -/
theorem unmarshal_crypto_and_urls_witness :
    unmarshalLayer blobBoth =
        (some (.encryptedBlobNew ⟨some sharedBoth, some ⟨"PBKDF2-AES256-GCM", "c2FsdA=="⟩⟩), none) ∧
      (unmarshalLayer blobBoth).1.map Blob.type = some BlobType.encryptedBlobNew ∧
      unmarshalLayer blobBoth = unmarshalLayer blobCrypto :=
  ⟨by decide,
    (unmarshal_crypto_and_urls _ (by decide) (by decide)).1,
    (unmarshal_crypto_and_urls _ (by decide) (by decide)).2.1⟩

/-- C3 does not hold of the code: the object `blobBoth`, which carries both
`crypto` and `urls`, is accepted by `unmarshalLayer` and by `unmarshalConfig`
(no error is returned), and so is a manifest whose only layer it is. -/
theorem unmarshal_crypto_and_urls_accepted :
    (unmarshalLayer blobBoth).2 = none ∧ (unmarshalConfig blobBoth).2 = none ∧
      (ImageManifest.UnmarshalJSON ⟨0, "", none, []⟩ (.obj [("layers", .arr [blobBoth])])
        [("layers", .arr [blobBoth])]).2 = none := by
  decide

/-! ## The config key object -/

theorem decodeMembers_configNew_EnCrypto (members : List (String × JSON)) :
    ∀ c : encryptedConfigNew,
      (decodeMembers encryptedConfigNew.step c members).1.EnCrypto = c.EnCrypto := by
  induction members with
  | nil => intro c; rfl
  | cons kv rest ih =>
      intro c
      simp only [decodeMembers, ih]
      unfold encryptedConfigNew.step
      cases embeddedMember c.NoncryptedBlob kv.1 kv.2 <;> rfl

/-- Whatever the members of the object, an `encryptedConfigNew` returned by
`unmarshalConfig` has a nil `EnCrypto`: the field is not read from the wire. -/
theorem unmarshalConfig_EnCrypto_nil (members : List (String × JSON)) (c : encryptedConfigNew)
    (e : Option GoError) (h : unmarshalConfig (.obj members) = (some (.encryptedConfigNew c), e)) :
    c.EnCrypto = none := by
  rw [unmarshalConfig_obj] at h
  unfold configTemplate at h
  split_ifs at h with h1 h2
  · simp only [decodeBlobMembers, Prod.mk.injEq, Option.some.injEq, Blob.encryptedConfigNew.injEq] at h
    rw [← h.1, decodeMembers_configNew_EnCrypto]
  · simp [decodeBlobMembers] at h
  · simp [decodeBlobMembers] at h

/-- C4 at a concrete config object: `unmarshalConfig` on a blob object carrying
`"crypto": {"algos": "PBKDF2-AES256-GCM", "key": "c2FsdA=="}` returns an
`encryptedConfigNew` whose `EnCrypto` is nil, without error, while
`unmarshalLayer` on the same object returns an `encryptedBlobNew` carrying the
key object; encoding the decoded config again, and `DecryptKey` on it, end in
a nil dereference. -/
theorem unmarshalConfig_drops_crypto :
    unmarshalConfig blobCrypto = (some (.encryptedConfigNew ⟨some sharedBoth, none⟩), none) ∧
      unmarshalLayer blobCrypto = (some layerNew, none) ∧
      marshalBlob (unmarshalConfig blobCrypto).1 = .fault nilDeref ∧
      encryptedConfigNew.DecryptKey countingCollab ⟨some sharedBoth, none⟩
        ⟨"PBKDF2-AES256-GCM", false⟩ 0 = (.fault nilDeref, 0) := by
  refine ⟨by decide, by decide, rfl, rfl⟩

/-! ## Encoding one blob -/

theorem marshalBlob_fault_of_not_encodable (b : Blob) (h : b.encodable = false) :
    marshalBlob (some b) = .fault nilDeref := by
  rcases b with b | b | b | b | b | (b | b) <;>
    simp only [Blob.encodable, Blob.shared, Blob.isEncryptedNew, Blob.EnCrypto] at h <;>
    simp only [marshalBlob, Blob.GetDigest, Blob.GetSize, Blob.GetMediaType, Blob.shared] <;>
    rcases b with ⟨_ | nb, _ | p⟩ <;> simp_all

/-- C5, as the code has it: for every blob `b` that can be read without a nil
dereference, `marshalBlob` returns a JSON object which contains the key
`crypto` exactly when `b` is an EncryptedNew struct (layer or config), its
value then being the object of `algos` and `key` of the key object; which
contains the key `urls` exactly when `b` is an EncryptedCompat struct (layer
or config), its value then being the encoding of the `URLs` slice (the array
of the URLs, or `null` when the slice is nil); and which never contains both
keys, hence neither for a plain or key-decrypted blob. -/
theorem marshalBlob_crypto_urls (b : Blob) (h : b.encodable = true) :
    ∃ members, marshalBlob (some b) = .ok (.obj members) ∧
      ("crypto" ∈ memberKeys members ↔ b.isEncryptedNew = true) ∧
      (b.isEncryptedNew = true →
        ∃ e, b.EnCrypto = some e ∧ ∀ v, ("crypto", v) ∈ members ↔ v = marshalEnCrypto e) ∧
      ("urls" ∈ memberKeys members ↔ b.isEncryptedCompat = true) ∧
      (b.isEncryptedCompat = true →
        ∀ v, ("urls", v) ∈ members ↔ v = marshalStringSlice b.URLs) ∧
      ¬ ("crypto" ∈ memberKeys members ∧ "urls" ∈ memberKeys members) := by
  rcases b with b | b | b | b | b | (b | b) <;>
    simp only [Blob.encodable, Blob.shared, Blob.isEncryptedNew, Blob.EnCrypto] at h
  · exact ⟨_, rfl, by simp [memberKeys, layerMembers, Blob.isEncryptedNew,
      Blob.isEncryptedCompat]⟩
  · rcases b with ⟨_ | nb, _ | p⟩ <;> simp at h
    exact ⟨_, rfl, by simp [memberKeys, layerMembers, Blob.isEncryptedNew,
      Blob.isEncryptedCompat, Blob.EnCrypto]⟩
  · rcases b with ⟨_ | nb, u⟩ <;> simp at h
    exact ⟨_, rfl, by simp [memberKeys, layerMembers, Blob.isEncryptedNew,
      Blob.isEncryptedCompat, Blob.URLs]⟩
  · rcases b with ⟨_ | nb, _ | p⟩ <;> simp at h
    exact ⟨_, rfl, by simp [memberKeys, layerMembers, Blob.isEncryptedNew,
      Blob.isEncryptedCompat, Blob.EnCrypto]⟩
  · rcases b with ⟨_ | nb, u⟩ <;> simp at h
    exact ⟨_, rfl, by simp [memberKeys, layerMembers, Blob.isEncryptedNew,
      Blob.isEncryptedCompat, Blob.URLs]⟩
  · rcases b with ⟨_ | nb, d⟩ <;> simp at h
    exact ⟨_, rfl, by simp [memberKeys, layerMembers, Blob.isEncryptedNew,
      Blob.isEncryptedCompat]⟩
  · rcases b with ⟨_ | nb, d⟩ <;> simp at h
    exact ⟨_, rfl, by simp [memberKeys, layerMembers, Blob.isEncryptedNew,
      Blob.isEncryptedCompat]⟩

/-- Witness of `marshalBlob_crypto_urls` at an EncryptedNew layer. -/
theorem marshalBlob_crypto_urls_witness :
    layerNew.encodable = true ∧
      ∃ members, marshalBlob (some layerNew) = .ok (.obj members) ∧
        ("crypto" ∈ memberKeys members ↔ layerNew.isEncryptedNew = true) ∧
        (layerNew.isEncryptedNew = true →
          ∃ e, layerNew.EnCrypto = some e ∧
            ∀ v, ("crypto", v) ∈ members ↔ v = marshalEnCrypto e) ∧
        ("urls" ∈ memberKeys members ↔ layerNew.isEncryptedCompat = true) ∧
        (layerNew.isEncryptedCompat = true →
          ∀ v, ("urls", v) ∈ members ↔ v = marshalStringSlice layerNew.URLs) ∧
        ¬ ("crypto" ∈ memberKeys members ∧ "urls" ∈ memberKeys members) :=
  ⟨by decide, marshalBlob_crypto_urls layerNew (by decide)⟩

/-- C5 does not hold of the code as stated: for the EncryptedCompat layer
`compatNilURLs`, whose `URLs` slice is nil, the object produced by
`marshalBlob` has the key `urls` with the value `null`; it contains no `urls`
array. -/
theorem marshalBlob_nil_urls_null :
    marshalBlob (some compatNilURLs) =
        .ok (.obj [("digest", .str "sha256:ab"), ("mediaType", .str "application/octet-stream"),
          ("size", .int 7), ("urls", .null)]) ∧
      ¬ ∃ items, ("urls", JSON.arr items) ∈
        [("digest", JSON.str "sha256:ab"), ("mediaType", JSON.str "application/octet-stream"),
          ("size", JSON.int 7), ("urls", JSON.null)] := by
  refine ⟨rfl, ?_⟩
  simp

/-- C6, as the code has it: for every blob `b` of every variant that can be
read without a nil dereference (its embedded `*NoncryptedBlob` is set and, in
an EncryptedNew struct, so is its `*EnCrypto`), `marshalBlob` returns a JSON
object whose first three members are `digest`, `mediaType` and `size`, with
the values of `b.GetDigest()`, `b.GetMediaType()` and `b.GetSize()`, and none
of the remaining members repeats one of these keys. -/
theorem marshalBlob_shared_members (b : Blob) (h : b.encodable = true) :
    ∃ digest mediaType size extra,
      b.GetDigest = .ok digest ∧ b.GetMediaType = .ok mediaType ∧ b.GetSize = .ok size ∧
      marshalBlob (some b) =
        .ok (.obj ([("digest", .str digest), ("mediaType", .str mediaType),
          ("size", .int size)] ++ extra)) ∧
      "digest" ∉ memberKeys extra ∧ "mediaType" ∉ memberKeys extra ∧
      "size" ∉ memberKeys extra := by
  rcases b with b | b | b | b | b | (b | b) <;>
    simp only [Blob.encodable, Blob.shared, Blob.isEncryptedNew, Blob.EnCrypto] at h
  · exact ⟨b.Digest, b.MediaType, b.Size, [], rfl, rfl, rfl, rfl, by simp [memberKeys]⟩
  · rcases b with ⟨_ | nb, _ | p⟩ <;> simp at h
    exact ⟨nb.Digest, nb.MediaType, nb.Size, [("crypto", marshalEnCrypto p)], rfl, rfl, rfl, rfl,
      by simp [memberKeys]⟩
  · rcases b with ⟨_ | nb, u⟩ <;> simp at h
    exact ⟨nb.Digest, nb.MediaType, nb.Size, [("urls", marshalStringSlice u)], rfl, rfl, rfl, rfl,
      by simp [memberKeys]⟩
  · rcases b with ⟨_ | nb, _ | p⟩ <;> simp at h
    exact ⟨nb.Digest, nb.MediaType, nb.Size, [("crypto", marshalEnCrypto p)], rfl, rfl, rfl, rfl,
      by simp [memberKeys]⟩
  · rcases b with ⟨_ | nb, u⟩ <;> simp at h
    exact ⟨nb.Digest, nb.MediaType, nb.Size, [("urls", marshalStringSlice u)], rfl, rfl, rfl, rfl,
      by simp [memberKeys]⟩
  · rcases b with ⟨_ | nb, d⟩ <;> simp at h
    exact ⟨nb.Digest, nb.MediaType, nb.Size, [], rfl, rfl, rfl, rfl, by simp [memberKeys]⟩
  · rcases b with ⟨_ | nb, d⟩ <;> simp at h
    exact ⟨nb.Digest, nb.MediaType, nb.Size, [], rfl, rfl, rfl, rfl, by simp [memberKeys]⟩

/-- Witness of `marshalBlob_shared_members` at an EncryptedNew config. -/
theorem marshalBlob_shared_members_witness :
    configNew.encodable = true ∧
      ∃ digest mediaType size extra,
        configNew.GetDigest = .ok digest ∧ configNew.GetMediaType = .ok mediaType ∧
        configNew.GetSize = .ok size ∧
        marshalBlob (some configNew) =
          .ok (.obj ([("digest", .str digest), ("mediaType", .str mediaType),
            ("size", .int size)] ++ extra)) ∧
        "digest" ∉ memberKeys extra ∧ "mediaType" ∉ memberKeys extra ∧
        "size" ∉ memberKeys extra :=
  ⟨by decide, marshalBlob_shared_members configNew (by decide)⟩

/-! ## Order of the layers -/

theorem marshalLayers_ok_iff (layers : List (Option Blob)) :
    ∀ js, marshalLayers layers = .ok js ↔
      List.Forall₂ (fun l j => marshalBlob l = .ok j) layers js := by
  induction layers with
  | nil =>
      intro js
      cases js <;> simp [marshalLayers]
  | cons l ls ih =>
      intro js
      unfold marshalLayers
      cases hb : marshalBlob l with
      | ok j =>
          cases hl : marshalLayers ls with
          | ok js1 =>
              cases js with
              | nil => simp
              | cons j2 js2 =>
                  simp only [Outcome.ok.injEq, List.cons.injEq, List.forall₂_cons, hb]
                  rw [← ih js2, hl, Outcome.ok.injEq]
          | error e =>
              cases js with
              | nil => simp
              | cons j2 js2 =>
                  simp only [List.forall₂_cons, ← ih js2, hl]
                  simp
          | fault msg =>
              cases js with
              | nil => simp
              | cons j2 js2 =>
                  simp only [List.forall₂_cons, ← ih js2, hl]
                  simp
      | error e =>
          cases js with
          | nil => simp
          | cons j2 js2 => simp [hb]
      | fault msg =>
          cases js with
          | nil => simp
          | cons j2 js2 => simp [hb]

theorem unmarshalLayersLoop_length (items : List JSON) :
    (unmarshalLayersLoop items).1.length = items.length := by
  induction items with
  | nil => rfl
  | cons j js ih =>
      unfold unmarshalLayersLoop
      cases h : (unmarshalLayer j).2 with
      | some e => simp [h]
      | none => simp [h, ih]

theorem unmarshalLayersLoop_ok (items : List JSON)
    (h : ∀ j ∈ items, (unmarshalLayer j).2 = none) :
    unmarshalLayersLoop items = (items.map (fun j => (unmarshalLayer j).1), none) := by
  induction items with
  | nil => rfl
  | cons j js ih =>
      have h1 : (unmarshalLayer j).2 = none := h j (List.mem_cons_self _ _)
      have h2 := ih (fun x hx => h x (List.mem_cons_of_mem _ hx))
      unfold unmarshalLayersLoop
      simp only [h1, h2, List.map_cons]

/-- C7: layer order and count are preserved in both directions.
`marshalLayers` returns the list `js` exactly when `js` has one element per
layer and its i-th element is what `marshalBlob` returns for the i-th layer.
`unmarshalLayers` on a JSON array always returns as many blobs as the array
has elements, and when every element decodes without error, the i-th blob
is what `unmarshalLayer` returns for the i-th element and no error is
returned. -/
theorem layers_order_preserved (layers : List (Option Blob)) (js items : List JSON) :
    (marshalLayers layers = .ok js ↔
        List.Forall₂ (fun l j => marshalBlob l = .ok j) layers js) ∧
      (unmarshalLayers (.arr items)).1.length = items.length ∧
      ((∀ j ∈ items, (unmarshalLayer j).2 = none) →
        unmarshalLayers (.arr items) = (items.map (fun j => (unmarshalLayer j).1), none)) :=
  ⟨marshalLayers_ok_iff layers js, unmarshalLayersLoop_length items,
    unmarshalLayersLoop_ok items⟩

/-- Witness of `layers_order_preserved`: two layers encoded, and decoded back in
the same order. -/
theorem layers_order_preserved_witness :
    marshalLayers [some layerNew, some compatNilURLs] =
        .ok [blobCrypto, .obj [("digest", .str "sha256:ab"),
          ("mediaType", .str "application/octet-stream"), ("size", .int 7), ("urls", .null)]] ∧
      unmarshalLayers (.arr [blobCrypto, .obj [("digest", .str "sha256:ab"),
          ("mediaType", .str "application/octet-stream"), ("size", .int 7), ("urls", .null)]]) =
        ([some layerNew, some compatNilURLs], none) :=
  ⟨((layers_order_preserved [some layerNew, some compatNilURLs] _ []).1).2
      (List.Forall₂.cons rfl (List.Forall₂.cons rfl List.Forall₂.nil)),
    (layers_order_preserved [] [] _).2.2 (by decide)⟩

/-! ## Compat blobs without a URL -/

/-- C9: for every EncryptedCompat blob, layer or config, whose `URLs` slice is
empty (nil or of length 0), for every options value, output name and state of
the collaborators, `DecryptKey` and `DecryptBlob` return the error
"missing encryption key" and leave the state as it was: neither the key
unwrap nor the file decryption is called. -/
theorem compat_empty_urls_missing_key {σ δ : Type} (c : Collab σ δ)
    (shared : Option NoncryptedBlob) (urls : Option (List String)) (h : urls.getD [] = [])
    (opts : Opts) (outname : String) (s : σ) :
    encryptedBlobCompat.DecryptKey c ⟨shared, urls⟩ opts s =
        (.error (.message "missing encryption key"), s) ∧
      encryptedBlobCompat.DecryptBlob c ⟨shared, urls⟩ opts outname s =
        (.error (.message "missing encryption key"), s) ∧
      encryptedConfigCompat.DecryptKey c ⟨shared, urls⟩ opts s =
        (.error (.message "missing encryption key"), s) ∧
      encryptedConfigCompat.DecryptBlob c ⟨shared, urls⟩ opts outname s =
        (.error (.message "missing encryption key"), s) ∧
      (GoError.message "missing encryption key").Error = "missing encryption key" := by
  have hn : newEncrypto c urls = .error (.message "missing encryption key") := by
    simp [newEncrypto, h]
  refine ⟨?_, ?_, ?_, ?_, rfl⟩
  · simp [encryptedBlobCompat.DecryptKey, hn]
  · simp [encryptedBlobCompat.DecryptBlob, hn]
  · simp [encryptedConfigCompat.DecryptKey, hn]
  · simp [encryptedConfigCompat.DecryptBlob, hn]

/-- Witness of `compat_empty_urls_missing_key` with collaborators that count
their calls: the counter stays at 0. -/
theorem compat_empty_urls_missing_key_witness :
    encryptedBlobCompat.DecryptKey countingCollab ⟨some sharedBoth, some []⟩
        ⟨"PBKDF2-AES256-GCM", false⟩ 0 = (.error (.message "missing encryption key"), 0) ∧
      encryptedConfigCompat.DecryptBlob countingCollab ⟨some sharedBoth, none⟩
        ⟨"PBKDF2-AES256-GCM", false⟩ "out" 0 = (.error (.message "missing encryption key"), 0) :=
  ⟨(compat_empty_urls_missing_key countingCollab (some sharedBoth) (some []) rfl
      ⟨"PBKDF2-AES256-GCM", false⟩ "out" 0).1,
    (compat_empty_urls_missing_key countingCollab (some sharedBoth) none rfl
      ⟨"PBKDF2-AES256-GCM", false⟩ "out" 0).2.2.2.1⟩

/-! ## The loop over the manifest map -/

theorem decodeString_error (old1 old2 : String) (v : JSON) :
    (decodeString old1 v).2 = (decodeString old2 v).2 := by
  cases v <;> rfl

theorem decodeInt64_error (target : String) (old1 old2 : Int) (v : JSON) :
    (decodeInt64 target old1 v).2 = (decodeInt64 target old2 v).2 := by
  cases v <;> simp only [decodeInt64]
  split_ifs <;> rfl

theorem ImageManifest.visit_error (m1 m2 : ImageManifest) (k : String) (v : JSON) :
    (m1.visit k v).2 = (m2.visit k v).2 := by
  unfold ImageManifest.visit
  split_ifs
  · exact decodeString_error _ _ v
  · exact decodeInt64_error _ _ _ v
  · rfl
  · rfl
  · rfl

theorem ImageManifest.visit_unknown (m : ImageManifest) (k : String) (v : JSON)
    (h : knownKey k = false) : m.visit k v = (m, none) := by
  simp only [knownKey, Bool.or_eq_false_iff, beq_eq_false_iff_ne, ne_eq] at h
  obtain ⟨⟨⟨h1, h2⟩, h3⟩, h4⟩ := h
  simp [ImageManifest.visit, h1, h2, h3, h4]

theorem ImageManifest.visit_comm (m : ImageManifest) (k1 k2 : String) (v1 v2 : JSON)
    (h : k1 ≠ k2) :
    ((m.visit k1 v1).1.visit k2 v2).1 = ((m.visit k2 v2).1.visit k1 v1).1 := by
  have h2 : k2 ≠ k1 := fun e => h e.symm
  by_cases a1 : k1 = "mediaType"
  · subst a1
    simp only [ImageManifest.visit, h2, if_true, if_false]
    split_ifs <;> rfl
  by_cases a2 : k1 = "schemaVersion"
  · subst a2
    simp only [ImageManifest.visit, h2, a1, if_true, if_false]
    split_ifs <;> rfl
  by_cases a3 : k1 = "config"
  · subst a3
    simp only [ImageManifest.visit, h2, a1, a2, if_true, if_false]
    split_ifs <;> rfl
  by_cases a4 : k1 = "layers"
  · subst a4
    simp only [ImageManifest.visit, h2, a1, a2, a3, if_true, if_false]
    split_ifs <;> rfl
  simp only [ImageManifest.visit, a1, a2, a3, a4, if_false]

theorem ImageManifest.range_none_iff (entries : List (String × JSON)) :
    ∀ m : ImageManifest, (m.range entries).2 = none ↔
      ∀ kv ∈ entries, (m.visit kv.1 kv.2).2 = none := by
  induction entries with
  | nil => intro m; simp [ImageManifest.range]
  | cons kv rest ih =>
      intro m
      unfold ImageManifest.range
      cases h : (m.visit kv.1 kv.2).2 with
      | some e => simp [h]
      | none =>
          simp only [h, List.mem_cons, forall_eq_or_imp, true_and]
          rw [ih]
          constructor
          · intro H x hx; rw [ImageManifest.visit_error m (m.visit kv.1 kv.2).1]; exact H x hx
          · intro H x hx; rw [ImageManifest.visit_error _ m]; exact H x hx

theorem ImageManifest.range_ok (entries : List (String × JSON)) :
    ∀ m : ImageManifest, (m.range entries).2 = none →
      (m.range entries).1 = m.visitAll entries := by
  induction entries with
  | nil => intro m _; rfl
  | cons kv rest ih =>
      intro m
      unfold ImageManifest.range ImageManifest.visitAll
      cases h : (m.visit kv.1 kv.2).2 with
      | some e => simp [h]
      | none =>
          simp only [h, List.foldl_cons]
          exact ih _

theorem ImageManifest.visitAll_filter (entries : List (String × JSON)) :
    ∀ m : ImageManifest,
      m.visitAll (entries.filter (fun kv => knownKey kv.1)) = m.visitAll entries := by
  induction entries with
  | nil => intro m; rfl
  | cons kv rest ih =>
      intro m
      cases hk : knownKey kv.1 with
      | true =>
          rw [List.filter_cons_of_pos (by simpa using hk)]
          simp only [ImageManifest.visitAll, List.foldl_cons]
          exact ih _
      | false =>
          rw [List.filter_cons_of_neg (by simp [hk])]
          simp only [ImageManifest.visitAll, List.foldl_cons, ImageManifest.visit_unknown m _ _ hk]
          exact ih _

theorem ImageManifest.visitAll_perm (l1 l2 : List (String × JSON)) (p : l1.Perm l2)
    (hn : (memberKeys l1).Nodup) (m : ImageManifest) : m.visitAll l1 = m.visitAll l2 := by
  unfold ImageManifest.visitAll
  refine List.Perm.foldl_eq' p ?_ m
  intro x hx y hy z
  by_cases e : x.1 = y.1
  · have : x = y := List.inj_on_of_nodup_map hn hx hy e
    rw [this]
  · exact ImageManifest.visit_comm z x.1 y.1 x.2 y.2 e

theorem nodup_filter_keys (l : List (String × JSON)) (p : String × JSON → Bool)
    (h : (memberKeys l).Nodup) : (memberKeys (l.filter p)).Nodup :=
  List.Nodup.sublist (List.Sublist.map Prod.fst (List.filter_sublist l)) h

/-- Two entry lists with distinct keys and the same entries under the four
known keys drive the loop to the same error status and, when there is no
error, to the same manifest. -/
theorem ImageManifest.range_congr (m : ImageManifest) (l1 l2 : List (String × JSON))
    (h1 : (memberKeys l1).Nodup) (h2 : (memberKeys l2).Nodup)
    (hmem : ∀ k v, knownKey k = true → ((k, v) ∈ l1 ↔ (k, v) ∈ l2)) :
    ((m.range l1).2 = none ↔ (m.range l2).2 = none) ∧
      ((m.range l1).2 = none → (m.range l1).1 = (m.range l2).1) := by
  have hiff : (m.range l1).2 = none ↔ (m.range l2).2 = none := by
    rw [ImageManifest.range_none_iff, ImageManifest.range_none_iff]
    constructor
    · intro H kv hkv
      cases hk : knownKey kv.1 with
      | true => exact H kv ((hmem kv.1 kv.2 hk).2 hkv)
      | false => rw [ImageManifest.visit_unknown m _ _ hk]
    · intro H kv hkv
      cases hk : knownKey kv.1 with
      | true => exact H kv ((hmem kv.1 kv.2 hk).1 hkv)
      | false => rw [ImageManifest.visit_unknown m _ _ hk]
  refine ⟨hiff, fun hok => ?_⟩
  rw [ImageManifest.range_ok l1 m hok, ImageManifest.range_ok l2 m (hiff.1 hok),
    ← ImageManifest.visitAll_filter l1, ← ImageManifest.visitAll_filter l2]
  refine ImageManifest.visitAll_perm _ _ ?_ (nodup_filter_keys l1 _ h1) m
  refine (List.perm_ext_iff_of_nodup ?_ ?_).2 ?_
  · exact List.Nodup.of_map Prod.fst (nodup_filter_keys l1 _ h1)
  · exact List.Nodup.of_map Prod.fst (nodup_filter_keys l2 _ h2)
  · rintro ⟨k, v⟩
    simp only [List.mem_filter]
    constructor
    · rintro ⟨a, b⟩; exact ⟨(hmem k v b).1 a, b⟩
    · rintro ⟨a, b⟩; exact ⟨(hmem k v b).2 a, b⟩

theorem VisitOrder.obj_iff (members order : List (String × JSON)) :
    VisitOrder (.obj members) order ↔ order.Perm (RawMap.ofMembers members) := by
  unfold VisitOrder unmarshalRawMap
  constructor
  · rintro ⟨mm, e, p⟩
    simp only [Except.ok.injEq] at e
    rw [e]; exact p
  · intro p; exact ⟨_, rfl, p⟩

theorem VisitOrder.nodup (members order : List (String × JSON))
    (h : VisitOrder (.obj members) order) : (memberKeys order).Nodup := by
  rw [VisitOrder.obj_iff] at h
  exact (List.Perm.nodup_iff (List.Perm.map Prod.fst h)).2 (RawMap.nodup_ofMembers members)

theorem VisitOrder.mem (members order : List (String × JSON))
    (h : VisitOrder (.obj members) order) (k : String) (v : JSON) :
    (k, v) ∈ order ↔ lastValue members k = some v := by
  rw [VisitOrder.obj_iff] at h
  rw [h.mem_iff, RawMap.mem_ofMembers]

theorem lastValue_append (l1 l2 : List (String × JSON)) (k : String) :
    lastValue (l1 ++ l2) k =
      match lastValue l2 k with
      | some v => some v
      | none => lastValue l1 k := by
  induction l1 with
  | nil => simp only [List.nil_append, lastValue]; cases lastValue l2 k <;> rfl
  | cons kv rest ih =>
      rw [List.cons_append]
      simp only [lastValue]
      rw [ih]
      cases lastValue l2 k <;> rfl

theorem lastValue_insert_other (pre post : List (String × JSON)) (k k1 : String) (v : JSON)
    (h : k ≠ k1) : lastValue (pre ++ (k, v) :: post) k1 = lastValue (pre ++ post) k1 := by
  rw [lastValue_append, lastValue_append]
  simp only [lastValue, h, if_false]
  cases lastValue post k1 <;> rfl

theorem UnmarshalJSON_obj (m : ImageManifest) (members order : List (String × JSON)) :
    m.UnmarshalJSON (.obj members) order = m.range order := rfl

/-- C8: for every manifest JSON object, every key `k` other than `mediaType`,
`schemaVersion`, `config` and `layers`, and every JSON value `v`,
`ImageManifest.UnmarshalJSON` on the object with a member `k: v` added (at
any place) has the same error status and, when there is no error, leaves the
same manifest as on the object without that member, whatever the orders in
which the two map iterations run. -/
theorem unknown_key_ignored (m : ImageManifest) (pre post : List (String × JSON)) (k : String)
    (v : JSON) (orderWith orderWithout : List (String × JSON))
    (hk : knownKey k = false)
    (hWith : VisitOrder (.obj (pre ++ (k, v) :: post)) orderWith)
    (hWithout : VisitOrder (.obj (pre ++ post)) orderWithout) :
    ((m.UnmarshalJSON (.obj (pre ++ (k, v) :: post)) orderWith).2 = none ↔
        (m.UnmarshalJSON (.obj (pre ++ post)) orderWithout).2 = none) ∧
      ((m.UnmarshalJSON (.obj (pre ++ (k, v) :: post)) orderWith).2 = none →
        (m.UnmarshalJSON (.obj (pre ++ (k, v) :: post)) orderWith).1 =
          (m.UnmarshalJSON (.obj (pre ++ post)) orderWithout).1) := by
  rw [UnmarshalJSON_obj, UnmarshalJSON_obj]
  refine ImageManifest.range_congr m orderWith orderWithout (VisitOrder.nodup _ _ hWith)
    (VisitOrder.nodup _ _ hWithout) ?_
  intro k1 v1 hk1
  have hne : k ≠ k1 := by
    intro e; rw [e, hk1] at hk; cases hk
  rw [VisitOrder.mem _ _ hWith, VisitOrder.mem _ _ hWithout, lastValue_insert_other _ _ _ _ _ hne]

/-! ## Field selection on the keys of the wire format -/

theorem fieldMatch_digest_digest : fieldMatch "digest" "digest" = true := by decide

theorem fieldMatch_digest_mediaType : fieldMatch "digest" "mediaType" = false := by decide

theorem fieldMatch_digest_size : fieldMatch "digest" "size" = false := by decide

theorem fieldMatch_digest_crypto : fieldMatch "digest" "crypto" = false := by decide

theorem fieldMatch_digest_urls : fieldMatch "digest" "urls" = false := by decide

theorem fieldMatch_mediaType_mediaType : fieldMatch "mediaType" "mediaType" = true := by decide

theorem fieldMatch_mediaType_size : fieldMatch "mediaType" "size" = false := by decide

theorem fieldMatch_mediaType_crypto : fieldMatch "mediaType" "crypto" = false := by decide

theorem fieldMatch_mediaType_urls : fieldMatch "mediaType" "urls" = false := by decide

theorem fieldMatch_size_size : fieldMatch "size" "size" = true := by decide

theorem fieldMatch_size_crypto : fieldMatch "size" "crypto" = false := by decide

theorem fieldMatch_size_urls : fieldMatch "size" "urls" = false := by decide

theorem fieldMatch_crypto_crypto : fieldMatch "crypto" "crypto" = true := by decide

theorem fieldMatch_urls_urls : fieldMatch "urls" "urls" = true := by decide

theorem fieldMatch_algos_algos : fieldMatch "algos" "algos" = true := by decide

theorem fieldMatch_algos_key : fieldMatch "algos" "key" = false := by decide

theorem fieldMatch_key_key : fieldMatch "key" "key" = true := by decide

/-! ## Decoding what the encoder writes -/

theorem decodeInt64_int (target : String) (old n : Int) (h : isInt64 n = true) :
    decodeInt64 target old (.int n) = (n, none) := by
  simp only [isInt64, Bool.and_eq_true, decide_eq_true_eq] at h
  simp [decodeInt64, h]

theorem decodeStringElems_map_str (urls : List String) :
    ∀ backing, decodeStringElems backing (urls.map JSON.str) = (urls, none) := by
  induction urls with
  | nil => intro backing; rfl
  | cons u us ih => intro backing; simp [decodeStringElems, ih, decodeString, firstError]

theorem decodeStringSlice_marshal (old urls : Option (List String)) (spare : List String) :
    (decodeStringSlice old spare (marshalStringSlice urls)).1.1 = urls ∧
      (decodeStringSlice old spare (marshalStringSlice urls)).2 = none := by
  cases urls with
  | none => exact ⟨rfl, rfl⟩
  | some us =>
      cases us with
      | nil => exact ⟨rfl, rfl⟩
      | cons u rest =>
          simp only [marshalStringSlice, List.map_cons, decodeStringSlice]
          rw [← List.map_cons, decodeStringElems_map_str]
          exact ⟨rfl, rfl⟩

theorem decodeEnCryptoPtr_marshal (old : Option EnCrypto) (e : EnCrypto) :
    decodeEnCryptoPtr old (marshalEnCrypto e) = (some e, none) := by
  simp [decodeEnCryptoPtr, marshalEnCrypto, decodeMembers, EnCrypto.step, fieldMatch_algos_algos,
    fieldMatch_algos_key, fieldMatch_key_key, decodeString, firstError]

theorem unmarshal_plain (digest mediaType : String) (size : Int) (h : isInt64 size = true) :
    unmarshalLayer (.obj (layerMembers digest mediaType size)) =
        (some (.noncrypted ⟨digest, mediaType, size, ""⟩), none) ∧
      unmarshalConfig (.obj (layerMembers digest mediaType size)) =
        (some (.noncrypted ⟨digest, mediaType, size, ""⟩), none) := by
  have t1 : layerTemplate (RawMap.ofMembers (layerMembers digest mediaType size)) =
      .noncrypted NoncryptedBlob.zero := by
    simp [layerTemplate, RawMap.ofMembers, RawMap.insert, RawMap.has, layerMembers]
  have t2 : configTemplate (RawMap.ofMembers (layerMembers digest mediaType size)) =
      .noncrypted NoncryptedBlob.zero := by
    simp [configTemplate, RawMap.ofMembers, RawMap.insert, RawMap.has, layerMembers]
  rw [unmarshalLayer_obj, unmarshalConfig_obj, t1, t2]
  simp [decodeBlobMembers, layerMembers, decodeMembers, NoncryptedBlob.step,
    NoncryptedBlob.member, fieldMatch_digest_digest, fieldMatch_digest_mediaType,
    fieldMatch_digest_size, fieldMatch_mediaType_mediaType, fieldMatch_mediaType_size,
    fieldMatch_size_size, decodeString, decodeInt64_int _ _ _ h, firstError, NoncryptedBlob.zero]

theorem unmarshalLayer_new (digest mediaType : String) (size : Int) (e : EnCrypto)
    (h : isInt64 size = true) :
    unmarshalLayer (.obj (layerMembers digest mediaType size ++ [("crypto", marshalEnCrypto e)])) =
      (some (.encryptedBlobNew ⟨some ⟨digest, mediaType, size, ""⟩, some e⟩), none) := by
  have t1 : layerTemplate (RawMap.ofMembers
      (layerMembers digest mediaType size ++ [("crypto", marshalEnCrypto e)])) =
      .encryptedBlobNew ⟨none, none⟩ := by
    simp [layerTemplate, RawMap.ofMembers, RawMap.insert, RawMap.has, layerMembers]
  rw [unmarshalLayer_obj, t1]
  simp [decodeBlobMembers, layerMembers, decodeMembers, encryptedBlobNew.step, embeddedMember,
    NoncryptedBlob.member, fieldMatch_digest_digest, fieldMatch_digest_mediaType,
    fieldMatch_digest_size, fieldMatch_mediaType_mediaType, fieldMatch_mediaType_size,
    fieldMatch_size_size, fieldMatch_digest_crypto, fieldMatch_mediaType_crypto,
    fieldMatch_size_crypto, fieldMatch_crypto_crypto, decodeEnCryptoPtr_marshal,
    decodeString, decodeInt64_int _ _ _ h, firstError, NoncryptedBlob.zero]

theorem unmarshal_compat (digest mediaType : String) (size : Int) (urls : Option (List String))
    (h : isInt64 size = true) :
    unmarshalLayer
        (.obj (layerMembers digest mediaType size ++ [("urls", marshalStringSlice urls)])) =
        (some (.encryptedBlobCompat ⟨some ⟨digest, mediaType, size, ""⟩, urls⟩), none) ∧
      unmarshalConfig
        (.obj (layerMembers digest mediaType size ++ [("urls", marshalStringSlice urls)])) =
        (some (.encryptedConfigCompat ⟨some ⟨digest, mediaType, size, ""⟩, urls⟩), none) := by
  have t1 : layerTemplate (RawMap.ofMembers
      (layerMembers digest mediaType size ++ [("urls", marshalStringSlice urls)])) =
      .encryptedBlobCompat ⟨none, none⟩ := by
    simp [layerTemplate, RawMap.ofMembers, RawMap.insert, RawMap.has, layerMembers]
  have t2 : configTemplate (RawMap.ofMembers
      (layerMembers digest mediaType size ++ [("urls", marshalStringSlice urls)])) =
      .encryptedConfigCompat ⟨none, none⟩ := by
    simp [configTemplate, RawMap.ofMembers, RawMap.insert, RawMap.has, layerMembers]
  rw [unmarshalLayer_obj, unmarshalConfig_obj, t1, t2]
  simp [decodeBlobMembers, layerMembers, decodeMembers, encryptedBlobCompat.step,
    encryptedConfigCompat.step, embeddedMember,
    NoncryptedBlob.member, fieldMatch_digest_digest, fieldMatch_digest_mediaType,
    fieldMatch_digest_size, fieldMatch_mediaType_mediaType, fieldMatch_mediaType_size,
    fieldMatch_size_size, fieldMatch_digest_urls, fieldMatch_mediaType_urls,
    fieldMatch_size_urls, fieldMatch_urls_urls, (decodeStringSlice_marshal _ _ _).1,
    (decodeStringSlice_marshal _ _ _).2,
    decodeString, decodeInt64_int _ _ _ h, firstError, NoncryptedBlob.zero]

/-- What `unmarshalLayer` reads back from what `marshalBlob` writes for a
layer in wire form. -/
theorem unmarshalLayer_marshalBlob (b : Blob) (h : b.validLayer = true) :
    ∃ j, marshalBlob (some b) = .ok j ∧ unmarshalLayer j = (some b.wire, none) := by
  rcases b with b | b | b | b | b | (b | b)
  · exact ⟨_, rfl, (unmarshal_plain b.Digest b.MediaType b.Size h).1⟩
  · rcases b with ⟨_ | nb, _ | e⟩ <;> simp only [Blob.validLayer] at h <;> try cases h
    exact ⟨_, rfl, unmarshalLayer_new nb.Digest nb.MediaType nb.Size e h⟩
  · rcases b with ⟨_ | nb, u⟩ <;> simp only [Blob.validLayer] at h <;> try cases h
    exact ⟨_, rfl, (unmarshal_compat nb.Digest nb.MediaType nb.Size u h).1⟩
  · simp [Blob.validLayer] at h
  · simp [Blob.validLayer] at h
  · simp [Blob.validLayer] at h
  · simp [Blob.validLayer] at h

/-- What `unmarshalConfig` reads back from what `marshalBlob` writes for a
plain or compat config. -/
theorem unmarshalConfig_marshalBlob (b : Blob) (h : b.validCompatConfig = true) :
    ∃ j, marshalBlob (some b) = .ok j ∧ unmarshalConfig j = (some b.wire, none) := by
  rcases b with b | b | b | b | b | (b | b)
  · exact ⟨_, rfl, (unmarshal_plain b.Digest b.MediaType b.Size h).2⟩
  · simp [Blob.validCompatConfig] at h
  · simp [Blob.validCompatConfig] at h
  · simp [Blob.validCompatConfig] at h
  · rcases b with ⟨_ | nb, u⟩ <;> simp only [Blob.validCompatConfig] at h <;> try cases h
    exact ⟨_, rfl, (unmarshal_compat nb.Digest nb.MediaType nb.Size u h).2⟩
  · simp [Blob.validCompatConfig] at h
  · simp [Blob.validCompatConfig] at h

theorem unmarshalLayers_marshalLayers (layers : List (Option Blob))
    (h : ∀ l ∈ layers, ∃ b, l = some b ∧ b.validLayer = true) :
    ∃ js, marshalLayers layers = .ok js ∧
      unmarshalLayers (.arr js) = (layers.map (Option.map Blob.wire), none) := by
  induction layers with
  | nil => exact ⟨[], rfl, rfl⟩
  | cons l ls ih =>
      obtain ⟨b, hb, hv⟩ := h l (List.mem_cons_self _ _)
      obtain ⟨js, h1, h2⟩ := ih (fun x hx => h x (List.mem_cons_of_mem _ hx))
      obtain ⟨j, h3, h4⟩ := unmarshalLayer_marshalBlob b hv
      subst hb
      refine ⟨j :: js, by simp [marshalLayers, h3, h1], ?_⟩
      simp only [unmarshalLayers] at h2 ⊢
      simp [unmarshalLayersLoop, h4, h2]

theorem lastValue_eq_some_iff (l : List (String × JSON)) (h : (memberKeys l).Nodup) (k : String) :
    ∀ v : JSON, lastValue l k = some v ↔ (k, v) ∈ l := by
  induction l with
  | nil => intro v; simp [lastValue]
  | cons kv rest ih =>
      obtain ⟨k0, v0⟩ := kv
      simp only [memberKeys, List.map_cons, List.nodup_cons] at h
      have ih1 := ih h.2
      have hnot : ∀ w, (k0, w) ∉ rest := fun w hw => h.1 (List.mem_map_of_mem Prod.fst hw)
      intro v
      simp only [lastValue, List.mem_cons, Prod.mk.injEq]
      cases hr : lastValue rest k with
      | some w =>
          have hm : (k, w) ∈ rest := (ih1 w).1 hr
          constructor
          · intro e
            simp only [Option.some.injEq] at e
            subst e; exact Or.inr hm
          · rintro (⟨a, _⟩ | c)
            · subst a; exact absurd hm (hnot _)
            · have := (ih1 v).2 c
              rw [hr] at this; exact this
      | none =>
          constructor
          · intro e
            by_cases hk : k0 = k
            · simp only [hk, if_true, Option.some.injEq] at e
              exact Or.inl ⟨hk.symm, e.symm⟩
            · simp [hk] at e
          · rintro (⟨a, b⟩ | c)
            · simp [a, b]
            · have := (ih1 v).2 c
              rw [hr] at this; cases this

/-- Decoding an object whose keys are pairwise distinct: whatever the order of
the map iteration, the outcome is that of the loop run in document order when
that run ends without error. -/
theorem UnmarshalJSON_of_nodup (m r : ImageManifest) (members order : List (String × JSON))
    (hn : (memberKeys members).Nodup) (ho : VisitOrder (.obj members) order)
    (hr : m.range members = (r, none)) :
    m.UnmarshalJSON (.obj members) order = (r, none) := by
  rw [UnmarshalJSON_obj]
  have key := ImageManifest.range_congr m members order hn (VisitOrder.nodup _ _ ho) (by
    intro k v _
    rw [VisitOrder.mem _ _ ho, lastValue_eq_some_iff _ hn])
  rw [hr] at key
  have e2 : (m.range order).2 = none := key.1.1 rfl
  have e1 : r = (m.range order).1 := key.2 rfl
  exact Prod.ext e1.symm e2

/-- The round trip of the manifest codec where it holds: for every manifest
whose schema version fits the Go integer, whose config is a plain or an
`encryptedConfigCompat` blob and whose layers are plain, `encryptedBlobNew` or
`encryptedBlobCompat` blobs, `MarshalJSON` returns a JSON object, and decoding
it into any receiver, in any order of the map iteration, returns no error and
leaves that manifest, file names apart. -/
theorem UnmarshalJSON_MarshalJSON (m m0 : ImageManifest) (c : Blob)
    (hsv : isInt64 m.SchemaVersion = true) (hc : m.Config = some c)
    (hcv : c.validCompatConfig = true)
    (hl : ∀ l ∈ m.Layers, ∃ b, l = some b ∧ b.validLayer = true) :
    ∃ j, m.MarshalJSON = .ok j ∧
      ∀ order, VisitOrder j order → m0.UnmarshalJSON j order = (m.wire, none) := by
  obtain ⟨cj, c1, c2⟩ := unmarshalConfig_marshalBlob c hcv
  obtain ⟨js, l1, l2⟩ := unmarshalLayers_marshalLayers m.Layers hl
  refine ⟨.obj [("schemaVersion", .int m.SchemaVersion), ("mediaType", .str m.MediaType),
    ("config", cj), ("layers", .arr js)], by simp [ImageManifest.MarshalJSON, hc, c1, l1], ?_⟩
  intro order ho
  refine UnmarshalJSON_of_nodup m0 m.wire _ order (by simp [memberKeys]) ho ?_
  simp [ImageManifest.range, ImageManifest.visit, decodeInt64_int _ _ _ hsv, decodeString, c2, l2,
    ImageManifest.wire, hc]

/-- C1 at a manifest with an EncryptedNew config: `MarshalJSON` writes the
`crypto` object of the config, and `UnmarshalJSON` of that JSON returns no
error but a manifest whose config has lost its key object (`EnCrypto` nil),
hence a manifest different from the one encoded; the EncryptedNew layer of the
same manifest comes back with its key object. -/
theorem roundtrip_config_new_loses_key :
    manifestNew.MarshalJSON = .ok manifestNewJSON ∧
      ImageManifest.zero.UnmarshalJSON manifestNewJSON manifestNewEntries =
        (⟨2, manifestV2,
          some (.encryptedConfigNew ⟨some sharedBoth, none⟩), [some layerNew]⟩, none) ∧
      (ImageManifest.zero.UnmarshalJSON manifestNewJSON manifestNewEntries).1 ≠ manifestNew ∧
      (ImageManifest.zero.UnmarshalJSON manifestNewJSON manifestNewEntries).1 ≠
        manifestNew.wire := by
  refine ⟨rfl, by decide, by decide, by decide⟩

/-- The loss of the config key object does not depend on the order of the map
iteration. -/
theorem roundtrip_config_new_any_order (order : List (String × JSON))
    (ho : VisitOrder manifestNewJSON order) :
    ImageManifest.zero.UnmarshalJSON manifestNewJSON order =
      (⟨2, manifestV2,
        some (.encryptedConfigNew ⟨some sharedBoth, none⟩), [some layerNew]⟩, none) :=
  UnmarshalJSON_of_nodup _ _ manifestNewEntries order (by decide) ho (by decide)

/-- Witness of `unknown_key_ignored`: the key `annotations` added between
`schemaVersion` and `mediaType`, each map met in an order that is not the
document order. -/
theorem unknown_key_ignored_witness :
    ((ImageManifest.zero.UnmarshalJSON
          (.obj [("schemaVersion", .int 2), ("annotations", .obj []),
            ("mediaType", .str "application/vnd.oci.image.manifest.v1+json")])
          [("annotations", .obj []), ("schemaVersion", .int 2),
            ("mediaType", .str "application/vnd.oci.image.manifest.v1+json")]).2 = none ↔
        (ImageManifest.zero.UnmarshalJSON (.obj scalarMembers)
          [("mediaType", .str "application/vnd.oci.image.manifest.v1+json"),
            ("schemaVersion", .int 2)]).2 = none) ∧
      ((ImageManifest.zero.UnmarshalJSON
          (.obj [("schemaVersion", .int 2), ("annotations", .obj []),
            ("mediaType", .str "application/vnd.oci.image.manifest.v1+json")])
          [("annotations", .obj []), ("schemaVersion", .int 2),
            ("mediaType", .str "application/vnd.oci.image.manifest.v1+json")]).2 = none →
        (ImageManifest.zero.UnmarshalJSON
          (.obj [("schemaVersion", .int 2), ("annotations", .obj []),
            ("mediaType", .str "application/vnd.oci.image.manifest.v1+json")])
          [("annotations", .obj []), ("schemaVersion", .int 2),
            ("mediaType", .str "application/vnd.oci.image.manifest.v1+json")]).1 =
          (ImageManifest.zero.UnmarshalJSON (.obj scalarMembers)
            [("mediaType", .str "application/vnd.oci.image.manifest.v1+json"),
              ("schemaVersion", .int 2)]).1) :=
  unknown_key_ignored ImageManifest.zero [("schemaVersion", .int 2)]
    [("mediaType", .str "application/vnd.oci.image.manifest.v1+json")] "annotations" (.obj [])
    _ _ (by decide) ⟨_, rfl, List.Perm.swap _ _ _⟩ ⟨_, rfl, List.Perm.swap _ _ _⟩

/-! ## Blobs with an empty `urls` array -/

theorem newEncrypto_empty {σ δ : Type} (c : Collab σ δ) (urls : Option (List String))
    (h : urls.getD [] = []) :
    newEncrypto c urls = .error (.message "missing encryption key") := by
  simp [newEncrypto, h]

theorem unmarshal_emptyURLsBlob (digest mediaType : String) (size : Int)
    (h : isInt64 size = true) :
    unmarshalLayer (emptyURLsBlob digest mediaType size) =
        (some (.encryptedBlobCompat ⟨some ⟨digest, mediaType, size, ""⟩, some []⟩), none) ∧
      unmarshalConfig (emptyURLsBlob digest mediaType size) =
        (some (.encryptedConfigCompat ⟨some ⟨digest, mediaType, size, ""⟩, some []⟩), none) :=
  unmarshal_compat digest mediaType size (some []) h

/-- C10 does not hold of the code: decoding the manifest whose config and only
layer are blob objects with `"urls": []` returns no error, with the map met in
document order as well as in the reverse order. -/
theorem unmarshal_empty_urls_accepted :
    (ImageManifest.zero.UnmarshalJSON
        (emptyURLsManifest "sha256:ab" "application/octet-stream" 7)
        [("schemaVersion", .int 2), ("mediaType", .str manifestV2),
          ("config", emptyURLsBlob "sha256:ab" "application/octet-stream" 7),
          ("layers", .arr [emptyURLsBlob "sha256:ab" "application/octet-stream" 7])]).2 = none ∧
      (ImageManifest.zero.UnmarshalJSON
        (emptyURLsManifest "sha256:ab" "application/octet-stream" 7)
        [("layers", .arr [emptyURLsBlob "sha256:ab" "application/octet-stream" 7]),
          ("config", emptyURLsBlob "sha256:ab" "application/octet-stream" 7),
          ("mediaType", .str manifestV2), ("schemaVersion", .int 2)]).2 = none := by
  decide

/-- The manifest `emptyURLsManifest`, whose config and only layer are blob
objects with `"urls": []` (and a size that fits `int64`), decodes without
error in any order of the map iteration, the config and the layer as
EncryptedCompat blobs with an empty URL list, on which `DecryptKey` and
`DecryptBlob` return the error "missing encryption key". -/
theorem unmarshal_emptyURLsManifest {σ δ : Type} (c : Collab σ δ) (m : ImageManifest)
    (digest mediaType : String) (size : Int) (order : List (String × JSON)) (opts : Opts)
    (outname : String) (s : σ) (h : isInt64 size = true)
    (ho : VisitOrder (emptyURLsManifest digest mediaType size) order) :
    m.UnmarshalJSON (emptyURLsManifest digest mediaType size) order =
        (⟨2, manifestV2,
            some (.encryptedConfigCompat ⟨some ⟨digest, mediaType, size, ""⟩, some []⟩),
            [some (.encryptedBlobCompat ⟨some ⟨digest, mediaType, size, ""⟩, some []⟩)]⟩,
          none) ∧
      encryptedBlobCompat.DecryptKey c ⟨some ⟨digest, mediaType, size, ""⟩, some []⟩ opts s =
        (.error (.message "missing encryption key"), s) ∧
      encryptedBlobCompat.DecryptBlob c ⟨some ⟨digest, mediaType, size, ""⟩, some []⟩ opts
        outname s = (.error (.message "missing encryption key"), s) ∧
      encryptedConfigCompat.DecryptKey c ⟨some ⟨digest, mediaType, size, ""⟩, some []⟩ opts s =
        (.error (.message "missing encryption key"), s) ∧
      encryptedConfigCompat.DecryptBlob c ⟨some ⟨digest, mediaType, size, ""⟩, some []⟩ opts
        outname s = (.error (.message "missing encryption key"), s) := by
  have hn := newEncrypto_empty c (some []) rfl
  refine ⟨?_, ?_, ?_, ?_, ?_⟩
  · refine UnmarshalJSON_of_nodup m _ _ order (by simp [memberKeys]) ho ?_
    simp [ImageManifest.range, ImageManifest.visit, unmarshal_emptyURLsBlob _ _ _ h,
      unmarshalLayers, unmarshalLayersLoop, decodeString, decodeInt64, minInt64, maxInt64]
  · simp [encryptedBlobCompat.DecryptKey, hn]
  · simp [encryptedBlobCompat.DecryptBlob, hn]
  · simp [encryptedConfigCompat.DecryptKey, hn]
  · simp [encryptedConfigCompat.DecryptBlob, hn]

/-! ## The sealed key object -/

theorem unaryDecode_replicate (k : Nat) (rest : List Char) :
    ∀ n, unaryDecode (List.replicate k 'x' ++ rest) n = unaryDecode rest (n + k) := by
  induction k with
  | zero => intro n; simp
  | succ k ih =>
      intro n
      rw [List.replicate_succ, List.cons_append]
      simp only [unaryDecode, if_true]
      rw [ih]
      congr 1
      omega

theorem unaryDecode_encode (bs : Bytes) : unaryDecode (unaryEncode bs) 0 = some bs := by
  induction bs with
  | nil => simp [unaryEncode, unaryDecode]
  | cons b rest ih =>
      rw [unaryEncode, unaryDecode_replicate]
      have h1 : ¬ (',' = 'x') := by decide
      simp only [unaryDecode, h1, if_false, if_true, Nat.zero_add, b.isLt, dite_true, ih,
        Option.map_some', Fin.eta]

theorem toyCrypto_lawful : toyCrypto.Lawful where
  open_seal := by
    intro key nonce plaintext ad _ _
    simp [toyCrypto]
  seal_length := by
    intro key nonce plaintext ad
    simp [toyCrypto]
  decode_encode := by
    intro bs
    simp [toyCrypto, unaryDecode_encode]

theorem NewCipher_32 (key : Bytes) (h : key.length = 32) : NewCipher key = .ok () := by
  simp [NewCipher, h]

theorem EncryptJSON_ok {V : Type} (lib : JSONCrypto V) (val : V) (key salt nonce : Bytes)
    (s : String) (h : EncryptJSON lib val key salt (.ok nonce) = .ok s) :
    ∃ plaintext, lib.Marshal val = .ok plaintext ∧
      s = lib.EncodeToString (salt ++ nonce ++ lib.Seal key nonce plaintext salt) := by
  unfold EncryptJSON at h
  cases hm : lib.Marshal val with
  | error e => simp [hm] at h
  | ok plaintext =>
      cases hc : NewCipher key with
      | error e => simp [hm, hc] at h
      | ok u =>
          simp only [hm, hc, Outcome.ok.injEq] at h
          exact ⟨plaintext, rfl, by simp [← h, Concat]⟩

theorem framing (salt nonce sealed : Bytes) (hs : salt.length = 16) (hn : nonce.length = 12) :
    (salt ++ nonce ++ sealed).take 16 = salt ∧
      ((salt ++ nonce ++ sealed).drop 16).take 12 = nonce ∧
      (salt ++ nonce ++ sealed).drop 28 = sealed := by
  refine ⟨?_, ?_, ?_⟩
  · rw [List.append_assoc, List.take_append_of_le_length (by omega), List.take_of_length_le (by omega)]
  · rw [List.append_assoc, List.drop_append_of_le_length (by omega),
      List.drop_of_length_le (by omega), List.nil_append,
      List.take_append_of_le_length (by omega), List.take_of_length_le (by omega)]
  · have : (salt ++ nonce).length = 28 := by simp [hs, hn]
    rw [← this, List.drop_left]

/-- C13: key-object round trip. For libraries satisfying their laws, every
32-byte key, 16-byte salt and 12-byte nonce drawn, and every value `k` that
JSON decoding into `target` gives back from its JSON encoding: when
`EncryptJSON(k, kek, salt)` returns the string `s`, `DecryptJSON(s, kek, target)`
succeeds and leaves `k` in the target. -/
theorem DecryptJSON_EncryptJSON {V : Type} (lib : JSONCrypto V) (hl : lib.Lawful)
    (k target : V) (kek salt nonce : Bytes) (s : String)
    (hk : kek.length = 32) (hs : salt.length = 16) (hn : nonce.length = 12)
    (hj : ∀ bs, lib.Marshal k = .ok bs → lib.Unmarshal bs target = .ok k)
    (he : EncryptJSON lib k kek salt (.ok nonce) = .ok s) :
    DecryptJSON lib s kek target = .ok k := by
  obtain ⟨plaintext, hm, rfl⟩ := EncryptJSON_ok lib k kek salt nonce s he
  obtain ⟨f1, f2, f3⟩ := framing salt nonce (lib.Seal kek nonce plaintext salt) hs hn
  have hlen : ¬ (salt ++ nonce ++ lib.Seal kek nonce plaintext salt).length < 28 := by
    simp only [List.length_append, hs, hn]
    omega
  unfold DecryptJSON
  simp only [hl.decode_encode, hlen, if_false, f1, f2, f3, NewCipher_32 kek hk,
    hl.open_seal kek nonce plaintext salt hk hn, hj plaintext hm]

/-- Witness of `DecryptJSON_EncryptJSON` on the stand-in libraries. -/
theorem DecryptJSON_EncryptJSON_witness :
    (∃ s, EncryptJSON toyCrypto dataKey3 key32 salt16 (.ok nonce12) = .ok s) ∧
      DecryptJSON toyCrypto
        (toyCrypto.EncodeToString (salt16 ++ nonce12 ++ (dataKey3 ++ List.replicate 16 0)))
        key32 [] = .ok dataKey3 :=
  ⟨⟨_, rfl⟩,
    DecryptJSON_EncryptJSON toyCrypto toyCrypto_lawful dataKey3 [] key32 salt16 nonce12 _
      (by decide) (by decide) (by decide) (fun _ h => by cases h; rfl) rfl⟩

/-- C14 on the code: whenever the input string decodes to fewer than 28 bytes,
`DecryptJSON` neither succeeds nor returns an error: it stops on the run-time
fault of a slice expression out of range, whatever the key and the target. -/
theorem DecryptJSON_short_input_faults {V : Type} (lib : JSONCrypto V) (ciphertext : String)
    (key : Bytes) (val : V) (decoded : Bytes)
    (hd : lib.DecodeString ciphertext = .ok decoded) (hshort : decoded.length < 28) :
    DecryptJSON lib ciphertext key val = .fault sliceBounds := by
  unfold DecryptJSON
  simp only [hd, hshort, if_true]

/-- Witness of `DecryptJSON_short_input_faults`: the empty string, which decodes
to no byte, with a 32-byte key. -/
theorem DecryptJSON_short_input_faults_witness :
    toyCrypto.DecodeString "" = .ok [] ∧
      DecryptJSON toyCrypto "" key32 [] = .fault sliceBounds :=
  ⟨rfl, DecryptJSON_short_input_faults toyCrypto "" key32 [] [] rfl (by decide)⟩

/-- C15: for libraries satisfying their laws, a 16-byte salt and the 12-byte
nonce drawn, a successful `EncryptJSON(v, key, salt)` returns the encoding of a
byte string whose first 16 bytes are the salt, whose next 12 bytes are the
nonce and whose remaining bytes are the seal of the JSON encoding of `v` under
`key` with that nonce and the salt as additional data; its length is 44 plus
the length of the JSON encoding of `v`. -/
theorem EncryptJSON_layout {V : Type} (lib : JSONCrypto V) (hl : lib.Lawful) (v : V)
    (key salt nonce : Bytes) (s : String) (hs : salt.length = 16) (hn : nonce.length = 12)
    (he : EncryptJSON lib v key salt (.ok nonce) = .ok s) :
    ∃ plaintext decoded, lib.Marshal v = .ok plaintext ∧
      s = lib.EncodeToString decoded ∧ lib.DecodeString s = .ok decoded ∧
      decoded.take 16 = salt ∧ (decoded.drop 16).take 12 = nonce ∧
      decoded.drop 28 = lib.Seal key nonce plaintext salt ∧
      decoded.length = 44 + plaintext.length := by
  obtain ⟨plaintext, hm, rfl⟩ := EncryptJSON_ok lib v key salt nonce s he
  obtain ⟨f1, f2, f3⟩ := framing salt nonce (lib.Seal key nonce plaintext salt) hs hn
  refine ⟨plaintext, _, hm, rfl, hl.decode_encode _, f1, f2, f3, ?_⟩
  simp only [List.length_append, hs, hn, hl.seal_length]
  omega

/-- Witness of `EncryptJSON_layout` on the stand-in libraries. -/
theorem EncryptJSON_layout_witness :
    ∃ plaintext decoded, toyCrypto.Marshal dataKey3 = .ok plaintext ∧
      toyCrypto.EncodeToString (salt16 ++ nonce12 ++ (dataKey3 ++ List.replicate 16 0)) =
        toyCrypto.EncodeToString decoded ∧
      toyCrypto.DecodeString
        (toyCrypto.EncodeToString (salt16 ++ nonce12 ++ (dataKey3 ++ List.replicate 16 0))) =
        .ok decoded ∧
      decoded.take 16 = salt16 ∧ (decoded.drop 16).take 12 = nonce12 ∧
      decoded.drop 28 = toyCrypto.Seal key32 nonce12 plaintext salt16 ∧
      decoded.length = 44 + plaintext.length :=
  EncryptJSON_layout toyCrypto toyCrypto_lawful dataKey3 key32 salt16 nonce12 _ (by decide)
    (by decide) rfl

/-- When the AEAD refuses to open the framed string, `DecryptJSON` returns that
error and the target is not decoded into. -/
theorem DecryptJSON_open_error {V : Type} (lib : JSONCrypto V) (ciphertext : String)
    (key decoded : Bytes) (val : V) (e : GoError)
    (hd : lib.DecodeString ciphertext = .ok decoded) (hlen : 28 ≤ decoded.length)
    (hk : key.length = 32)
    (ho : lib.Open key ((decoded.drop 16).take 12) (decoded.drop 28) (decoded.take 16) =
      .error e) :
    DecryptJSON lib ciphertext key val = .error (.withStack e) := by
  have hlt : ¬ decoded.length < 28 := by omega
  unfold DecryptJSON
  simp only [hd, hlt, if_false, NewCipher_32 key hk, ho]

/-! ## The key object of a compat blob -/

theorem queryGet_absent (u : URL) (key : String) (h : ∀ kv ∈ u.query, kv.1 ≠ key) :
    u.queryGet key = "" := by
  unfold URL.queryGet
  have : u.query.find? (fun kv => kv.1 == key) = none := by
    rw [List.find?_eq_none]
    intro kv hkv
    simpa using h kv hkv
  rw [this]

theorem newEncrypto_unknown_algos {σ δ : Type} (c : Collab σ δ) (first : String)
    (rest : List String) (u : URL) (hp : c.Parse first = .ok u)
    (ha : u.queryGet AlgosKey ≠ Pbkdf2Aes256Gcm) :
    newEncrypto c (some (first :: rest)) = .error (.message "unknown algorithm") := by
  simp [newEncrypto, hp, ValidateAlgos, ha]

theorem newEncrypto_valid {σ δ : Type} (c : Collab σ δ) (first : String) (rest : List String)
    (u : URL) (a : String) (hp : c.Parse first = .ok u)
    (ha : ValidateAlgos (u.queryGet AlgosKey) = .ok a) :
    newEncrypto c (some (first :: rest)) = .ok ⟨a, u.queryGet KeyKey⟩ := by
  simp [newEncrypto, hp, ha]

theorem compat_of_newEncrypto_error {σ δ : Type} (c : Collab σ δ)
    (shared : Option NoncryptedBlob) (urls : Option (List String)) (err : GoError)
    (h : newEncrypto c urls = .error err) (opts : Opts) (outname : String) (s : σ) :
    encryptedBlobCompat.DecryptKey c ⟨shared, urls⟩ opts s = (.error err, s) ∧
      encryptedBlobCompat.DecryptBlob c ⟨shared, urls⟩ opts outname s = (.error err, s) ∧
      encryptedConfigCompat.DecryptKey c ⟨shared, urls⟩ opts s = (.error err, s) ∧
      encryptedConfigCompat.DecryptBlob c ⟨shared, urls⟩ opts outname s = (.error err, s) := by
  refine ⟨?_, ?_, ?_, ?_⟩
  · simp [encryptedBlobCompat.DecryptKey, h]
  · simp [encryptedBlobCompat.DecryptBlob, h]
  · simp [encryptedConfigCompat.DecryptKey, h]
  · simp [encryptedConfigCompat.DecryptBlob, h]

/-- C11: for every non-empty `urls` list whose first URL parses and either has
no `algos` query parameter or has an `algos` value other than
`PBKDF2-AES256-GCM`, `newEncrypto` returns the error "unknown algorithm" (no
key object with a default algorithm), and `DecryptKey` and `DecryptBlob` of
the compat blob, layer or config, holding that list return this error without
calling a collaborator. -/
theorem newEncrypto_rejects_algos {σ δ : Type} (c : Collab σ δ) (first : String)
    (rest : List String) (u : URL) (shared : Option NoncryptedBlob) (opts : Opts)
    (outname : String) (s : σ) (hp : c.Parse first = .ok u)
    (ha : (∀ kv ∈ u.query, kv.1 ≠ AlgosKey) ∨ u.queryGet AlgosKey ≠ Pbkdf2Aes256Gcm) :
    newEncrypto c (some (first :: rest)) = .error (.message "unknown algorithm") ∧
      encryptedBlobCompat.DecryptKey c ⟨shared, some (first :: rest)⟩ opts s =
        (.error (.message "unknown algorithm"), s) ∧
      encryptedBlobCompat.DecryptBlob c ⟨shared, some (first :: rest)⟩ opts outname s =
        (.error (.message "unknown algorithm"), s) ∧
      encryptedConfigCompat.DecryptKey c ⟨shared, some (first :: rest)⟩ opts s =
        (.error (.message "unknown algorithm"), s) ∧
      encryptedConfigCompat.DecryptBlob c ⟨shared, some (first :: rest)⟩ opts outname s =
        (.error (.message "unknown algorithm"), s) := by
  have hne : u.queryGet AlgosKey ≠ Pbkdf2Aes256Gcm := by
    rcases ha with h | h
    · rw [queryGet_absent u AlgosKey h]; decide
    · exact h
  have hn := newEncrypto_unknown_algos c first rest u hp hne
  exact ⟨hn, compat_of_newEncrypto_error c shared _ _ hn opts outname s⟩

/-- Witness of `newEncrypto_rejects_algos`: a URL with a `key` parameter and no
`algos` parameter. -/
theorem newEncrypto_rejects_algos_witness :
    newEncrypto parsingCollab (some [compatURLNoAlgos, compatURL]) =
        .error (.message "unknown algorithm") ∧
      encryptedBlobCompat.DecryptKey parsingCollab
        ⟨some sharedBoth, some [compatURLNoAlgos, compatURL]⟩ ⟨"PBKDF2-AES256-GCM", true⟩ 0 =
        (.error (.message "unknown algorithm"), 0) :=
  ⟨(newEncrypto_rejects_algos parsingCollab compatURLNoAlgos [compatURL]
      ⟨[("key", "c2FsdA==")]⟩ (some sharedBoth) ⟨"PBKDF2-AES256-GCM", true⟩ "out" 0
      rfl (Or.inl (by decide))).1,
    (newEncrypto_rejects_algos parsingCollab compatURLNoAlgos [compatURL]
      ⟨[("key", "c2FsdA==")]⟩ (some sharedBoth) ⟨"PBKDF2-AES256-GCM", true⟩ "out" 0
      rfl (Or.inl (by decide))).2.1⟩

/-- C12: for every non-empty `urls` list `u :: rest`, `newEncrypto` returns on
it what it returns on `[u]`: the URLs after the first are not read. When `u`
parses and `ValidateAlgos` accepts its `algos` parameter as `a`, the result is
the key object with `Algos = a` and, as `EncKey`, the value of the `key`
parameter of `u`. -/
theorem newEncrypto_first_url {σ δ : Type} (c : Collab σ δ) (u : String) (rest : List String) :
    newEncrypto c (some (u :: rest)) = newEncrypto c (some [u]) ∧
      ∀ parsed a, c.Parse u = .ok parsed → ValidateAlgos (parsed.queryGet AlgosKey) = .ok a →
        newEncrypto c (some (u :: rest)) = .ok ⟨a, parsed.queryGet KeyKey⟩ :=
  ⟨rfl, fun parsed a hp ha => newEncrypto_valid c u rest parsed a hp ha⟩

/-- Witness of `newEncrypto_first_url`: a valid first URL followed by another
one. -/
theorem newEncrypto_first_url_witness :
    newEncrypto parsingCollab (some [compatURL, compatURLNoAlgos]) =
        newEncrypto parsingCollab (some [compatURL]) ∧
      newEncrypto parsingCollab (some [compatURL, compatURLNoAlgos]) =
        .ok ⟨"PBKDF2-AES256-GCM", "c2FsdA=="⟩ :=
  ⟨(newEncrypto_first_url parsingCollab compatURL [compatURLNoAlgos]).1,
    (newEncrypto_first_url parsingCollab compatURL [compatURLNoAlgos]).2
      ⟨[("algos", "PBKDF2-AES256-GCM"), ("key", "c2FsdA==")]⟩ "PBKDF2-AES256-GCM"
      rfl rfl⟩

/-! ## `DecryptBlob` as a composition -/

theorem blobNew_DecryptBlob_eq {σ δ : Type} (c : Collab σ δ) (eb : encryptedBlobNew)
    (opts : Opts) (outname : String) (s : σ) :
    eb.DecryptBlob c opts outname s = decryptKeyThenFile c (eb.DecryptKey c opts s) opts outname := by
  unfold encryptedBlobNew.DecryptBlob decryptKeyThenFile
  rcases eb.DecryptKey c opts s with ⟨_ | _ | _, s1⟩ <;> rfl

theorem configNew_DecryptBlob_eq {σ δ : Type} (c : Collab σ δ) (ec : encryptedConfigNew)
    (opts : Opts) (outname : String) (s : σ) :
    ec.DecryptBlob c opts outname s = decryptKeyThenFile c (ec.DecryptKey c opts s) opts outname := by
  unfold encryptedConfigNew.DecryptBlob decryptKeyThenFile
  rcases ec.DecryptKey c opts s with ⟨_ | _ | _, s1⟩ <;> rfl

theorem blobCompat_DecryptKey_eq {σ δ : Type} (c : Collab σ δ) (shared : Option NoncryptedBlob)
    (urls : Option (List String)) (ek : EnCrypto) (h : newEncrypto c urls = .ok ek)
    (opts : Opts) (s : σ) :
    encryptedBlobCompat.DecryptKey c ⟨shared, urls⟩ opts s =
      encryptedBlobNew.DecryptKey c ⟨shared, some ek⟩ opts s := by
  simp only [encryptedBlobCompat.DecryptKey, encryptedBlobNew.DecryptKey, h]

theorem configCompat_DecryptKey_eq {σ δ : Type} (c : Collab σ δ)
    (shared : Option NoncryptedBlob) (urls : Option (List String)) (ek : EnCrypto)
    (h : newEncrypto c urls = .ok ek) (opts : Opts) (s : σ) :
    encryptedConfigCompat.DecryptKey c ⟨shared, urls⟩ opts s =
      encryptedConfigNew.DecryptKey c ⟨shared, some ek⟩ opts s := by
  simp only [encryptedConfigCompat.DecryptKey, encryptedConfigNew.DecryptKey, h]

theorem blobCompat_DecryptBlob_eq {σ δ : Type} (c : Collab σ δ) (shared : Option NoncryptedBlob)
    (urls : Option (List String)) (ek : EnCrypto) (h : newEncrypto c urls = .ok ek)
    (opts : Opts) (outname : String) (s : σ) :
    encryptedBlobCompat.DecryptBlob c ⟨shared, urls⟩ opts outname s =
      encryptedBlobNew.DecryptBlob c ⟨shared, some ek⟩ opts outname s := by
  simp only [encryptedBlobCompat.DecryptBlob, h]

theorem configCompat_DecryptBlob_eq {σ δ : Type} (c : Collab σ δ)
    (shared : Option NoncryptedBlob) (urls : Option (List String)) (ek : EnCrypto)
    (h : newEncrypto c urls = .ok ek) (opts : Opts) (outname : String) (s : σ) :
    encryptedConfigCompat.DecryptBlob c ⟨shared, urls⟩ opts outname s =
      encryptedConfigNew.DecryptBlob c ⟨shared, some ek⟩ opts outname s := by
  simp only [encryptedConfigCompat.DecryptBlob, h]

theorem blobCompat_DecryptBlob_comp {σ δ : Type} (c : Collab σ δ) (e : encryptedBlobCompat)
    (opts : Opts) (outname : String) (s : σ) :
    e.DecryptBlob c opts outname s = decryptKeyThenFile c (e.DecryptKey c opts s) opts outname := by
  obtain ⟨shared, urls⟩ := e
  cases h : newEncrypto c urls with
  | error err =>
      simp [encryptedBlobCompat.DecryptBlob, encryptedBlobCompat.DecryptKey, h,
        decryptKeyThenFile]
  | ok ek =>
      rw [blobCompat_DecryptBlob_eq c shared urls ek h, blobCompat_DecryptKey_eq c shared urls ek h,
        blobNew_DecryptBlob_eq]

theorem configCompat_DecryptBlob_comp {σ δ : Type} (c : Collab σ δ) (e : encryptedConfigCompat)
    (opts : Opts) (outname : String) (s : σ) :
    e.DecryptBlob c opts outname s = decryptKeyThenFile c (e.DecryptKey c opts s) opts outname := by
  obtain ⟨shared, urls⟩ := e
  cases h : newEncrypto c urls with
  | error err =>
      simp [encryptedConfigCompat.DecryptBlob, encryptedConfigCompat.DecryptKey, h,
        decryptKeyThenFile]
  | ok ek =>
      rw [configCompat_DecryptBlob_eq c shared urls ek h,
        configCompat_DecryptKey_eq c shared urls ek h, configNew_DecryptBlob_eq]

/-- C16: for each of the four encrypted structs, every options value, output
name and state of the collaborators, `DecryptBlob(opts, out)` is `DecryptKey`
followed by `DecryptFile`: when `DecryptKey(opts)` fails, `DecryptBlob` fails
with the same error and `DecryptFile` is not run; when it returns `kb`,
`DecryptBlob` returns what `kb.DecryptFile(opts, out)` returns. -/
theorem DecryptBlob_is_DecryptKey_then_DecryptFile {σ δ : Type} (c : Collab σ δ)
    (bn : encryptedBlobNew) (bc : encryptedBlobCompat) (cn : encryptedConfigNew)
    (cc : encryptedConfigCompat) (opts : Opts) (outname : String) (s : σ) :
    bn.DecryptBlob c opts outname s =
        decryptKeyThenFile c (bn.DecryptKey c opts s) opts outname ∧
      bc.DecryptBlob c opts outname s =
        decryptKeyThenFile c (bc.DecryptKey c opts s) opts outname ∧
      cn.DecryptBlob c opts outname s =
        decryptKeyThenFile c (cn.DecryptKey c opts s) opts outname ∧
      cc.DecryptBlob c opts outname s =
        decryptKeyThenFile c (cc.DecryptKey c opts s) opts outname :=
  ⟨blobNew_DecryptBlob_eq c bn opts outname s, blobCompat_DecryptBlob_comp c bc opts outname s,
    configNew_DecryptBlob_eq c cn opts outname s, configCompat_DecryptBlob_comp c cc opts outname s⟩

/-- C17: compat equivalence. For every EncryptedCompat blob, layer or config,
whose `urls` list `newEncrypto` turns into the key object `ek`, `DecryptKey`
and `DecryptBlob` return on it what they return on the EncryptedNew blob of
the same family with the same shared record and the key object `ek`, for
every options value, output name and state of the collaborators. -/
theorem compat_equivalence {σ δ : Type} (c : Collab σ δ) (shared : Option NoncryptedBlob)
    (urls : Option (List String)) (ek : EnCrypto) (opts : Opts) (outname : String) (s : σ)
    (h : newEncrypto c urls = .ok ek) :
    encryptedBlobCompat.DecryptKey c ⟨shared, urls⟩ opts s =
        encryptedBlobNew.DecryptKey c ⟨shared, some ek⟩ opts s ∧
      encryptedBlobCompat.DecryptBlob c ⟨shared, urls⟩ opts outname s =
        encryptedBlobNew.DecryptBlob c ⟨shared, some ek⟩ opts outname s ∧
      encryptedConfigCompat.DecryptKey c ⟨shared, urls⟩ opts s =
        encryptedConfigNew.DecryptKey c ⟨shared, some ek⟩ opts s ∧
      encryptedConfigCompat.DecryptBlob c ⟨shared, urls⟩ opts outname s =
        encryptedConfigNew.DecryptBlob c ⟨shared, some ek⟩ opts outname s :=
  ⟨blobCompat_DecryptKey_eq c shared urls ek h opts s,
    blobCompat_DecryptBlob_eq c shared urls ek h opts outname s,
    configCompat_DecryptKey_eq c shared urls ek h opts s,
    configCompat_DecryptBlob_eq c shared urls ek h opts outname s⟩

/-- Witness of `compat_equivalence`: the compat layer holding `compatURL` and
the EncryptedNew layer holding the key object read from it both decrypt to the
same key-decrypted blob, after one key unwrap. -/
theorem compat_equivalence_witness :
    encryptedBlobCompat.DecryptKey parsingCollab ⟨some sharedBoth, some [compatURL]⟩
        ⟨"PBKDF2-AES256-GCM", true⟩ 0 =
        encryptedBlobNew.DecryptKey parsingCollab
          ⟨some sharedBoth, some ⟨"PBKDF2-AES256-GCM", "c2FsdA=="⟩⟩ ⟨"PBKDF2-AES256-GCM", true⟩ 0 ∧
      encryptedBlobNew.DecryptKey parsingCollab
          ⟨some sharedBoth, some ⟨"PBKDF2-AES256-GCM", "c2FsdA=="⟩⟩ ⟨"PBKDF2-AES256-GCM", true⟩ 0 =
        (.ok (.blob ⟨some sharedBoth, some ⟨"PBKDF2-AES256-GCM", [1, 2, 3], [4]⟩⟩), 1) :=
  ⟨(compat_equivalence parsingCollab (some sharedBoth) (some [compatURL])
      ⟨"PBKDF2-AES256-GCM", "c2FsdA=="⟩ ⟨"PBKDF2-AES256-GCM", true⟩ "out" 0 rfl).1, by decide⟩

/-! ## What `DecryptKey` keeps -/

theorem blobNew_DecryptKey_ok {σ δ : Type} (c : Collab σ δ) (eb : encryptedBlobNew) (opts : Opts)
    (s s1 : σ) (kb : KeyDecryptedBlob) (h : eb.DecryptKey c opts s = (.ok kb, s1)) :
    ∃ ek dk, eb.EnCrypto = some ek ∧ c.DecryptKey ek opts s = (.ok dk, s1) ∧
      kb = .blob ⟨eb.NoncryptedBlob, some dk⟩ := by
  unfold encryptedBlobNew.DecryptKey at h
  cases he : eb.EnCrypto with
  | none => simp [he] at h
  | some ek =>
      rcases hd : c.DecryptKey ek opts s with ⟨r, s2⟩
      rcases r with dk | e | msg <;> simp only [he, hd, Prod.mk.injEq] at h
      · exact ⟨ek, dk, rfl, by rw [hd, h.2], (Outcome.ok.inj h.1).symm⟩
      · exact absurd h.1 (by simp)
      · exact absurd h.1 (by simp)

theorem configNew_DecryptKey_ok {σ δ : Type} (c : Collab σ δ) (ec : encryptedConfigNew)
    (opts : Opts) (s s1 : σ) (kb : KeyDecryptedBlob) (h : ec.DecryptKey c opts s = (.ok kb, s1)) :
    ∃ ek dk, ec.EnCrypto = some ek ∧ c.DecryptKey ek opts s = (.ok dk, s1) ∧
      kb = .config ⟨ec.NoncryptedBlob, some dk⟩ := by
  unfold encryptedConfigNew.DecryptKey at h
  cases he : ec.EnCrypto with
  | none => simp [he] at h
  | some ek =>
      rcases hd : c.DecryptKey ek opts s with ⟨r, s2⟩
      rcases r with dk | e | msg <;> simp only [he, hd, Prod.mk.injEq] at h
      · exact ⟨ek, dk, rfl, by rw [hd, h.2], (Outcome.ok.inj h.1).symm⟩
      · exact absurd h.1 (by simp)
      · exact absurd h.1 (by simp)

/-- C20: `DecryptKey` keeps the shared record and the family of the blob. For
each of the four encrypted structs, whenever `DecryptKey` returns a
key-decrypted blob, that blob holds the `NoncryptedBlob` of the receiver and
exactly the key material the key unwrap returned for the key object of the
receiver (for a compat struct, the key object `newEncrypto` reads from its
URLs); a layer struct gives a `keyDecryptedBlob`, a config struct a
`keyDecryptedConfig`. -/
theorem DecryptKey_keeps_shared_record {σ δ : Type} (c : Collab σ δ) (opts : Opts) (s s1 : σ)
    (kb : KeyDecryptedBlob) :
    (∀ eb : encryptedBlobNew, eb.DecryptKey c opts s = (.ok kb, s1) →
        ∃ ek dk, eb.EnCrypto = some ek ∧ c.DecryptKey ek opts s = (.ok dk, s1) ∧
          kb = .blob ⟨eb.NoncryptedBlob, some dk⟩) ∧
      (∀ e : encryptedBlobCompat, e.DecryptKey c opts s = (.ok kb, s1) →
        ∃ ek dk, newEncrypto c e.URLs = .ok ek ∧ c.DecryptKey ek opts s = (.ok dk, s1) ∧
          kb = .blob ⟨e.NoncryptedBlob, some dk⟩) ∧
      (∀ ec : encryptedConfigNew, ec.DecryptKey c opts s = (.ok kb, s1) →
        ∃ ek dk, ec.EnCrypto = some ek ∧ c.DecryptKey ek opts s = (.ok dk, s1) ∧
          kb = .config ⟨ec.NoncryptedBlob, some dk⟩) ∧
      (∀ e : encryptedConfigCompat, e.DecryptKey c opts s = (.ok kb, s1) →
        ∃ ek dk, newEncrypto c e.URLs = .ok ek ∧ c.DecryptKey ek opts s = (.ok dk, s1) ∧
          kb = .config ⟨e.NoncryptedBlob, some dk⟩) := by
  refine ⟨fun eb h => blobNew_DecryptKey_ok c eb opts s s1 kb h, ?_,
    fun ec h => configNew_DecryptKey_ok c ec opts s s1 kb h, ?_⟩
  · rintro ⟨shared, urls⟩ h
    cases hn : newEncrypto c urls with
    | error err => simp [encryptedBlobCompat.DecryptKey, hn] at h
    | ok ek =>
        rw [blobCompat_DecryptKey_eq c shared urls ek hn] at h
        obtain ⟨ek1, dk, e1, e2, e3⟩ := blobNew_DecryptKey_ok c _ opts s s1 kb h
        simp only [Option.some.injEq] at e1
        subst e1
        exact ⟨ek, dk, rfl, e2, e3⟩
  · rintro ⟨shared, urls⟩ h
    cases hn : newEncrypto c urls with
    | error err => simp [encryptedConfigCompat.DecryptKey, hn] at h
    | ok ek =>
        rw [configCompat_DecryptKey_eq c shared urls ek hn] at h
        obtain ⟨ek1, dk, e1, e2, e3⟩ := configNew_DecryptKey_ok c _ opts s s1 kb h
        simp only [Option.some.injEq] at e1
        subst e1
        exact ⟨ek, dk, rfl, e2, e3⟩

/-- Witness of `DecryptKey_keeps_shared_record`: a compat config holding
`compatURL`. -/
theorem DecryptKey_keeps_shared_record_witness :
    encryptedConfigCompat.DecryptKey parsingCollab ⟨some sharedBoth, some [compatURL]⟩
        ⟨"PBKDF2-AES256-GCM", true⟩ 0 =
        (.ok (.config ⟨some sharedBoth, some ⟨"PBKDF2-AES256-GCM", [1, 2, 3], [4]⟩⟩), 1) ∧
      ∃ ek dk, newEncrypto parsingCollab (some [compatURL]) = .ok ek ∧
        parsingCollab.DecryptKey ek ⟨"PBKDF2-AES256-GCM", true⟩ 0 = (.ok dk, 1) ∧
        KeyDecryptedBlob.config ⟨some sharedBoth, some ⟨"PBKDF2-AES256-GCM", [1, 2, 3], [4]⟩⟩ =
          .config ⟨some sharedBoth, some dk⟩ :=
  ⟨by decide,
    (DecryptKey_keeps_shared_record parsingCollab ⟨"PBKDF2-AES256-GCM", true⟩ 0 1
      (.config ⟨some sharedBoth, some ⟨"PBKDF2-AES256-GCM", [1, 2, 3], [4]⟩⟩)).2.2.2
      ⟨some sharedBoth, some [compatURL]⟩ (by decide)⟩

/-! ## Reporting the error of the root command -/

/-- C19: when the root command returns an error, `Execute` logs it once, in
the stack-trace format `%+v` exactly when the verbose flag is set and the
error carries a stack (its cause is not a `utils.Error`, or is one with
`HasStack` set), in the one-line format `%v` in every other case, and the
process exits with status 1 either way; when the command succeeds nothing is
logged and the process does not exit. -/
theorem Execute_reports (debug : Bool) (err : CmdError) :
    Execute debug (some err) =
        ⟨[(if debug = true ∧ err.carriesStack = true then Verb.plusV else Verb.v, err)], some 1⟩ ∧
      Execute debug none = ⟨[], none⟩ := by
  refine ⟨?_, rfl⟩
  obtain ⟨text, cause⟩ := err
  cases debug <;> rcases cause with ⟨⟨_ | _⟩⟩ | _ <;> rfl

/-! ## Independence from the order of the map iteration -/

theorem UnmarshalJSON_ok_shape (m : ImageManifest) (data : JSON) (order : List (String × JSON))
    (h : (m.UnmarshalJSON data order).2 = none) :
    data = .null ∨ ∃ members, data = .obj members := by
  cases data with
  | null => exact Or.inl rfl
  | obj members => exact Or.inr ⟨members, rfl⟩
  | bool b => simp [ImageManifest.UnmarshalJSON, unmarshalRawMap] at h
  | int n => simp [ImageManifest.UnmarshalJSON, unmarshalRawMap] at h
  | float lit => simp [ImageManifest.UnmarshalJSON, unmarshalRawMap] at h
  | str s => simp [ImageManifest.UnmarshalJSON, unmarshalRawMap] at h
  | arr items => simp [ImageManifest.UnmarshalJSON, unmarshalRawMap] at h

theorem VisitOrder.null_iff (order : List (String × JSON)) :
    VisitOrder .null order ↔ order = [] := by
  unfold VisitOrder unmarshalRawMap
  constructor
  · rintro ⟨mm, e, p⟩
    simp only [Except.ok.injEq] at e
    subst e
    exact List.Perm.eq_nil p
  · intro e; subst e; exact ⟨[], rfl, List.Perm.refl _⟩

theorem VisitOrder.shape (data : JSON) (order : List (String × JSON))
    (h : VisitOrder data order) : data = .null ∨ ∃ members, data = .obj members := by
  obtain ⟨mm, e, _⟩ := h
  cases data with
  | null => exact Or.inl rfl
  | obj members => exact Or.inr ⟨members, rfl⟩
  | bool b => simp [unmarshalRawMap] at e
  | int n => simp [unmarshalRawMap] at e
  | float lit => simp [unmarshalRawMap] at e
  | str s => simp [unmarshalRawMap] at e
  | arr items => simp [unmarshalRawMap] at e

theorem UnmarshalJSON_two_orders (m : ImageManifest) (data : JSON)
    (order1 order2 : List (String × JSON)) (h1 : VisitOrder data order1)
    (h2 : VisitOrder data order2) :
    ((m.UnmarshalJSON data order1).2 = none ↔ (m.UnmarshalJSON data order2).2 = none) ∧
      ((m.UnmarshalJSON data order1).2 = none →
        (m.UnmarshalJSON data order1).1 = (m.UnmarshalJSON data order2).1) := by
  rcases VisitOrder.shape data order1 h1 with e | ⟨members, e⟩
  · subst e
    rw [(VisitOrder.null_iff order1).1 h1, (VisitOrder.null_iff order2).1 h2]
    exact ⟨Iff.rfl, fun _ => rfl⟩
  · subst e
    rw [UnmarshalJSON_obj, UnmarshalJSON_obj]
    refine ImageManifest.range_congr m order1 order2 (VisitOrder.nodup _ _ h1)
      (VisitOrder.nodup _ _ h2) ?_
    intro k v _
    rw [VisitOrder.mem _ _ h1, VisitOrder.mem _ _ h2]

theorem valueDecodes_iff (m : ImageManifest) (k : String) (v : JSON) :
    valueDecodes k v = true ↔ (m.visit k v).2 = none := by
  unfold valueDecodes
  rw [ImageManifest.visit_error ImageManifest.zero m, Option.isNone_iff_eq_none]

theorem UnmarshalJSON_ok_iff (m : ImageManifest) (members order : List (String × JSON))
    (h : VisitOrder (.obj members) order) :
    (m.UnmarshalJSON (.obj members) order).2 = none ↔
      ∀ k v, knownKey k = true → lastValue members k = some v → valueDecodes k v = true := by
  rw [UnmarshalJSON_obj, ImageManifest.range_none_iff]
  constructor
  · intro H k v _ hv
    rw [valueDecodes_iff m]
    exact H (k, v) ((VisitOrder.mem _ _ h k v).2 hv)
  · rintro H ⟨k, v⟩ hkv
    cases hk : knownKey k with
    | true =>
        rw [← valueDecodes_iff m]
        exact H k v hk ((VisitOrder.mem _ _ h k v).1 hkv)
    | false => rw [ImageManifest.visit_unknown m k v hk]

/-- C21, as the code has it: `ImageManifest.UnmarshalJSON` does not depend on
the order in which the entries of the map are met. For every input and every
two admissible orders, decoding into the same manifest fails under both or
succeeds under both, with the same resulting manifest. It returns no error
exactly when the input is a JSON object, or the JSON value `null`, and the
value of each key among `mediaType`, `schemaVersion`, `config`, `layers`
present in it (the last one, for a repeated key) decodes; on `null` the
manifest is left as it was. -/
theorem UnmarshalJSON_order_independent (m : ImageManifest) (data : JSON)
    (order1 order2 : List (String × JSON)) :
    (VisitOrder data order1 → VisitOrder data order2 →
        ((m.UnmarshalJSON data order1).2 = none ↔ (m.UnmarshalJSON data order2).2 = none) ∧
        ((m.UnmarshalJSON data order1).2 = none →
          (m.UnmarshalJSON data order1).1 = (m.UnmarshalJSON data order2).1)) ∧
      ((m.UnmarshalJSON data order1).2 = none →
        data = .null ∨ ∃ members, data = .obj members) ∧
      (∀ members, data = .obj members → VisitOrder data order1 →
        ((m.UnmarshalJSON data order1).2 = none ↔
          ∀ k v, knownKey k = true → lastValue members k = some v →
            valueDecodes k v = true)) ∧
      (data = .null → VisitOrder data order1 → m.UnmarshalJSON data order1 = (m, none)) := by
  refine ⟨UnmarshalJSON_two_orders m data order1 order2, UnmarshalJSON_ok_shape m data order1,
    ?_, ?_⟩
  · intro members e h
    subst e
    exact UnmarshalJSON_ok_iff m members order1 h
  · intro e h
    subst e
    rw [(VisitOrder.null_iff order1).1 h]
    rfl

/-- Witness of `UnmarshalJSON_order_independent`: the object of the two scalar
keys met in document order and in the reverse order. -/
theorem UnmarshalJSON_order_independent_witness :
    VisitOrder (.obj scalarMembers) scalarMembers ∧
      VisitOrder (.obj scalarMembers)
        [("mediaType", .str "application/vnd.oci.image.manifest.v1+json"),
          ("schemaVersion", .int 2)] ∧
      ImageManifest.zero.UnmarshalJSON (.obj scalarMembers) scalarMembers =
        (⟨2, "application/vnd.oci.image.manifest.v1+json", none, []⟩, none) ∧
      (ImageManifest.zero.UnmarshalJSON (.obj scalarMembers) scalarMembers).1 =
        (ImageManifest.zero.UnmarshalJSON (.obj scalarMembers)
          [("mediaType", .str "application/vnd.oci.image.manifest.v1+json"),
            ("schemaVersion", .int 2)]).1 :=
  ⟨⟨_, rfl, List.Perm.refl _⟩, ⟨_, rfl, List.Perm.swap _ _ _⟩, by decide,
    ((UnmarshalJSON_order_independent ImageManifest.zero (.obj scalarMembers) scalarMembers
      [("mediaType", .str "application/vnd.oci.image.manifest.v1+json"),
        ("schemaVersion", .int 2)]).1 ⟨_, rfl, List.Perm.refl _⟩
      ⟨_, rfl, List.Perm.swap _ _ _⟩).2 (by decide)⟩

/-- C21 does not hold of the code as stated: on the input `null`, which is not
a JSON object, `UnmarshalJSON` returns no error (the only admissible order is
the empty one, the map being nil). -/
theorem UnmarshalJSON_null_succeeds :
    VisitOrder JSON.null [] ∧ (ImageManifest.zero.UnmarshalJSON JSON.null []).2 = none ∧
      ¬ ∃ members, JSON.null = JSON.obj members :=
  ⟨⟨[], rfl, List.Perm.refl _⟩, rfl, by simp⟩

/-! ## The key object of a decoded EncryptedNew blob -/

/-- C22 on the code: `unmarshalLayer` accepts a blob object with
`"crypto": null` and returns an `encryptedBlobNew` whose `EnCrypto` is nil, on
which `DecryptKey` and `DecryptBlob` stop on a nil dereference before any
collaborator is called; `unmarshalConfig` returns an `encryptedConfigNew`
whose `EnCrypto` is nil for a blob object with a well-formed `crypto` object,
with the same fault in `DecryptKey` and `DecryptBlob`. With `"crypto": {}` the
layer holds a key object, with empty fields. -/
theorem decoded_new_blob_nil_key :
    unmarshalLayer blobCryptoNull = (some (.encryptedBlobNew ⟨some sharedBoth, none⟩), none) ∧
      encryptedBlobNew.DecryptKey countingCollab ⟨some sharedBoth, none⟩
        ⟨"PBKDF2-AES256-GCM", false⟩ 0 = (.fault nilDeref, 0) ∧
      encryptedBlobNew.DecryptBlob countingCollab ⟨some sharedBoth, none⟩
        ⟨"PBKDF2-AES256-GCM", false⟩ "out" 0 = (.fault nilDeref, 0) ∧
      unmarshalConfig blobCrypto = (some (.encryptedConfigNew ⟨some sharedBoth, none⟩), none) ∧
      encryptedConfigNew.DecryptKey countingCollab ⟨some sharedBoth, none⟩
        ⟨"PBKDF2-AES256-GCM", false⟩ 0 = (.fault nilDeref, 0) ∧
      encryptedConfigNew.DecryptBlob countingCollab ⟨some sharedBoth, none⟩
        ⟨"PBKDF2-AES256-GCM", false⟩ "out" 0 = (.fault nilDeref, 0) ∧
      unmarshalLayer blobCryptoEmpty =
        (some (.encryptedBlobNew ⟨some sharedBoth, some ⟨"", ""⟩⟩), none) := by
  refine ⟨by decide, rfl, rfl, by decide, rfl, rfl, by decide⟩

/-! ## The errors of the decoder -/

theorem onlyTypeError_none : onlyTypeError none := by
  intro e h; cases h

theorem onlyTypeError_typeError (j : JSON) (target : String) :
    onlyTypeError (some (typeError j target)) := by
  intro e h
  simp only [Option.some.injEq] at h
  subst h; rfl

theorem onlyTypeError_firstError (a b : Option GoError) (ha : onlyTypeError a)
    (hb : onlyTypeError b) : onlyTypeError (firstError a b) := by
  cases a with
  | none => exact hb
  | some e => exact ha

theorem onlyTypeError_withStack (a : Option GoError) (ha : onlyTypeError a) :
    onlyTypeError (a.map GoError.withStack) := by
  intro e h
  cases a with
  | none => cases h
  | some x =>
      simp only [Option.map_some', Option.some.injEq] at h
      subst h
      exact ha x rfl

theorem onlyTypeError_some_withStack (e : GoError) (h : onlyTypeError (some e)) :
    onlyTypeError (some (.withStack e)) :=
  onlyTypeError_withStack (some e) h

theorem decodeString_onlyTypeError (old : String) (j : JSON) :
    onlyTypeError (decodeString old j).2 := by
  cases j <;> first | exact onlyTypeError_none | exact onlyTypeError_typeError _ _

theorem decodeInt64_onlyTypeError (target : String) (old : Int) (j : JSON) :
    onlyTypeError (decodeInt64 target old j).2 := by
  cases j with
  | int n =>
      simp only [decodeInt64]
      split_ifs
      · exact onlyTypeError_none
      · exact onlyTypeError_typeError _ _
  | _ => first | exact onlyTypeError_none | exact onlyTypeError_typeError _ _

theorem decodeStringElems_onlyTypeError (items : List JSON) :
    ∀ backing, onlyTypeError (decodeStringElems backing items).2 := by
  induction items with
  | nil => intro backing; exact onlyTypeError_none
  | cons j js ih =>
      intro backing
      exact onlyTypeError_firstError _ _ (decodeString_onlyTypeError _ j) (ih _)

theorem decodeStringSlice_onlyTypeError (old : Option (List String)) (spare : List String)
    (j : JSON) : onlyTypeError (decodeStringSlice old spare j).2 := by
  cases j with
  | arr items =>
      cases items with
      | nil => exact onlyTypeError_none
      | cons x xs => exact decodeStringElems_onlyTypeError _ _
  | _ => first | exact onlyTypeError_none | exact onlyTypeError_typeError _ _

theorem decodeMembers_onlyTypeError {α : Type} (step : α → String → JSON → α × Option GoError)
    (hstep : ∀ st k v, onlyTypeError (step st k v).2) (members : List (String × JSON)) :
    ∀ init, onlyTypeError (decodeMembers step init members).2 := by
  induction members with
  | nil => intro init; exact onlyTypeError_none
  | cons kv rest ih =>
      intro init
      exact onlyTypeError_firstError _ _ (hstep _ _ _) (ih _)

theorem member_onlyTypeError (b : NoncryptedBlob) (key : String) (v : JSON)
    (r : NoncryptedBlob × Option GoError) (h : b.member key v = some r) :
    onlyTypeError r.2 := by
  unfold NoncryptedBlob.member at h
  split_ifs at h <;> simp only [Option.some.injEq] at h <;> subst h
  · exact decodeString_onlyTypeError _ _
  · exact decodeString_onlyTypeError _ _
  · exact decodeInt64_onlyTypeError _ _ _

theorem embeddedMember_onlyTypeError (p : Option NoncryptedBlob) (key : String) (v : JSON)
    (r : Option NoncryptedBlob × Option GoError) (h : embeddedMember p key v = some r) :
    onlyTypeError r.2 := by
  unfold embeddedMember at h
  cases hm : (p.getD NoncryptedBlob.zero).member key v with
  | none => simp [hm] at h
  | some x =>
      simp only [hm, Option.some.injEq] at h
      subst h
      exact member_onlyTypeError _ _ _ _ hm

theorem plain_step_onlyTypeError (b : NoncryptedBlob) (key : String) (v : JSON) :
    onlyTypeError (b.step key v).2 := by
  unfold NoncryptedBlob.step
  cases hm : b.member key v with
  | none => exact onlyTypeError_none
  | some x => exact member_onlyTypeError _ _ _ _ hm

theorem keyObject_step_onlyTypeError (e : EnCrypto) (key : String) (v : JSON) :
    onlyTypeError (e.step key v).2 := by
  unfold EnCrypto.step
  split_ifs
  · exact decodeString_onlyTypeError _ _
  · exact decodeString_onlyTypeError _ _
  · exact onlyTypeError_none

theorem decodeEnCryptoPtr_onlyTypeError (old : Option EnCrypto) (j : JSON) :
    onlyTypeError (decodeEnCryptoPtr old j).2 := by
  cases j with
  | obj members => exact decodeMembers_onlyTypeError _ keyObject_step_onlyTypeError members _
  | _ => first | exact onlyTypeError_none | exact onlyTypeError_typeError _ _

theorem blobNew_step_onlyTypeError (b : encryptedBlobNew) (key : String) (v : JSON) :
    onlyTypeError (b.step key v).2 := by
  unfold encryptedBlobNew.step
  cases hm : embeddedMember b.NoncryptedBlob key v with
  | some x => exact embeddedMember_onlyTypeError _ _ _ _ hm
  | none =>
      simp only
      split_ifs
      · exact decodeEnCryptoPtr_onlyTypeError _ _
      · exact onlyTypeError_none

theorem configNew_step_onlyTypeError (c : encryptedConfigNew) (key : String) (v : JSON) :
    onlyTypeError (c.step key v).2 := by
  unfold encryptedConfigNew.step
  cases hm : embeddedMember c.NoncryptedBlob key v with
  | some x => exact embeddedMember_onlyTypeError _ _ _ _ hm
  | none => exact onlyTypeError_none

theorem blobCompat_step_onlyTypeError (st : encryptedBlobCompat × List String) (key : String)
    (v : JSON) : onlyTypeError (encryptedBlobCompat.step st key v).2 := by
  unfold encryptedBlobCompat.step
  cases hm : embeddedMember st.1.NoncryptedBlob key v with
  | some x => exact embeddedMember_onlyTypeError _ _ _ _ hm
  | none =>
      simp only
      split_ifs
      · exact decodeStringSlice_onlyTypeError _ _ _
      · exact onlyTypeError_none

theorem configCompat_step_onlyTypeError (st : encryptedConfigCompat × List String)
    (key : String) (v : JSON) : onlyTypeError (encryptedConfigCompat.step st key v).2 := by
  unfold encryptedConfigCompat.step
  cases hm : embeddedMember st.1.NoncryptedBlob key v with
  | some x => exact embeddedMember_onlyTypeError _ _ _ _ hm
  | none =>
      simp only
      split_ifs
      · exact decodeStringSlice_onlyTypeError _ _ _
      · exact onlyTypeError_none

theorem decodeBlobMembers_onlyTypeError (b : Blob) (members : List (String × JSON)) :
    onlyTypeError (decodeBlobMembers b members).2 := by
  cases b with
  | noncrypted b => exact decodeMembers_onlyTypeError _ plain_step_onlyTypeError _ _
  | encryptedBlobNew b => exact decodeMembers_onlyTypeError _ blobNew_step_onlyTypeError _ _
  | encryptedBlobCompat b => exact decodeMembers_onlyTypeError _ blobCompat_step_onlyTypeError _ _
  | encryptedConfigNew c => exact decodeMembers_onlyTypeError _ configNew_step_onlyTypeError _ _
  | encryptedConfigCompat c =>
      exact decodeMembers_onlyTypeError _ configCompat_step_onlyTypeError _ _
  | keyDecrypted k => exact onlyTypeError_none

theorem unmarshalLayer_onlyTypeError (j : JSON) : onlyTypeError (unmarshalLayer j).2 := by
  cases j with
  | obj members =>
      rw [unmarshalLayer_obj]
      exact onlyTypeError_withStack _ (decodeBlobMembers_onlyTypeError _ _)
  | null => exact onlyTypeError_none
  | _ => exact onlyTypeError_some_withStack _ (onlyTypeError_typeError _ _)

theorem unmarshalConfig_onlyTypeError (j : JSON) : onlyTypeError (unmarshalConfig j).2 := by
  cases j with
  | obj members =>
      rw [unmarshalConfig_obj]
      exact onlyTypeError_withStack _ (decodeBlobMembers_onlyTypeError _ _)
  | null => exact onlyTypeError_none
  | _ => exact onlyTypeError_typeError _ _

theorem unmarshalLayersLoop_onlyTypeError (items : List JSON) :
    onlyTypeError (unmarshalLayersLoop items).2 := by
  induction items with
  | nil => exact onlyTypeError_none
  | cons j js ih =>
      unfold unmarshalLayersLoop
      cases h : (unmarshalLayer j).2 with
      | some e =>
          simp only [h]
          rw [← h]
          exact unmarshalLayer_onlyTypeError j
      | none => simpa [h] using ih

theorem unmarshalLayers_onlyTypeError (v : JSON) : onlyTypeError (unmarshalLayers v).2 := by
  cases v with
  | arr items => exact unmarshalLayersLoop_onlyTypeError items
  | null => exact onlyTypeError_none
  | _ => exact onlyTypeError_some_withStack _ (onlyTypeError_typeError _ _)

theorem visit_onlyTypeError (m : ImageManifest) (k : String) (v : JSON) :
    onlyTypeError (m.visit k v).2 := by
  unfold ImageManifest.visit
  split_ifs
  · exact decodeString_onlyTypeError _ _
  · exact decodeInt64_onlyTypeError _ _ _
  · exact unmarshalConfig_onlyTypeError _
  · exact unmarshalLayers_onlyTypeError _
  · exact onlyTypeError_none

theorem range_onlyTypeError (entries : List (String × JSON)) :
    ∀ m : ImageManifest, onlyTypeError (m.range entries).2 := by
  induction entries with
  | nil => intro m; exact onlyTypeError_none
  | cons kv rest ih =>
      intro m
      unfold ImageManifest.range
      cases h : (m.visit kv.1 kv.2).2 with
      | some e =>
          simp only [h]
          exact onlyTypeError_some_withStack _ (by rw [← h]; exact visit_onlyTypeError m _ _)
      | none => simpa [h] using ih _

theorem UnmarshalJSON_onlyTypeError (m : ImageManifest) (data : JSON)
    (order : List (String × JSON)) : onlyTypeError (m.UnmarshalJSON data order).2 := by
  unfold ImageManifest.UnmarshalJSON
  cases data with
  | obj members => exact range_onlyTypeError _ _
  | null => exact range_onlyTypeError _ _
  | _ => exact onlyTypeError_some_withStack _ (onlyTypeError_typeError _ _)

theorem isTypeError_text (e : GoError) (h : e.isTypeError = true) :
    e.Error ≠ "missing encryption key" := by
  induction e with
  | message msg => simp [GoError.isTypeError] at h
  | unmarshalType value target =>
      intro he
      have := congrArg (fun s : String => s.data.head?) he
      simp [GoError.Error] at this
  | withStack cause ih => exact ih h

/-! ## Blob objects whose `urls` members are empty arrays -/

theorem fieldMatch_urls_only (k : String) (h : fieldMatch "urls" k = true) :
    fieldMatch "digest" k = false ∧ fieldMatch "mediaType" k = false ∧
      fieldMatch "size" k = false := by
  simp only [fieldMatch, beq_iff_eq] at h
  refine ⟨?_, ?_, ?_⟩ <;>
    · simp only [fieldMatch, h, beq_eq_false_iff_ne, ne_eq]
      decide

theorem embeddedMember_of_urls (p : Option NoncryptedBlob) (k : String) (v : JSON)
    (h : fieldMatch "urls" k = true) : embeddedMember p k v = none := by
  obtain ⟨h1, h2, h3⟩ := fieldMatch_urls_only k h
  simp [embeddedMember, NoncryptedBlob.member, h1, h2, h3]

theorem member_error (b1 b2 : NoncryptedBlob) (k : String) (v : JSON) :
    (b1.member k v).map Prod.snd = (b2.member k v).map Prod.snd := by
  unfold NoncryptedBlob.member
  split_ifs
  · simp only [Option.map_some']; rw [decodeString_error b1.Digest b2.Digest]
  · simp only [Option.map_some']; rw [decodeString_error b1.MediaType b2.MediaType]
  · simp only [Option.map_some']; rw [decodeInt64_error "int64" b1.Size b2.Size]
  · rfl

theorem blobCompat_step_error (st : encryptedBlobCompat × List String) (b : NoncryptedBlob)
    (k : String) (v : JSON) (h : fieldMatch "urls" k = true → v = .arr []) :
    (encryptedBlobCompat.step st k v).2 = (b.step k v).2 := by
  have hm := member_error (st.1.NoncryptedBlob.getD NoncryptedBlob.zero) b k v
  unfold encryptedBlobCompat.step NoncryptedBlob.step embeddedMember
  cases h1 : (st.1.NoncryptedBlob.getD NoncryptedBlob.zero).member k v with
  | some r =>
      cases h2 : b.member k v with
      | some r2 => simpa [h1, h2] using hm
      | none => simp [h1, h2] at hm
  | none =>
      cases h2 : b.member k v with
      | some r2 => simp [h1, h2] at hm
      | none =>
          simp only
          split_ifs with hu
          · rw [h hu]; rfl
          · rfl

theorem configCompat_step_error (st : encryptedConfigCompat × List String) (b : NoncryptedBlob)
    (k : String) (v : JSON) (h : fieldMatch "urls" k = true → v = .arr []) :
    (encryptedConfigCompat.step st k v).2 = (b.step k v).2 := by
  have hm := member_error (st.1.NoncryptedBlob.getD NoncryptedBlob.zero) b k v
  unfold encryptedConfigCompat.step NoncryptedBlob.step embeddedMember
  cases h1 : (st.1.NoncryptedBlob.getD NoncryptedBlob.zero).member k v with
  | some r =>
      cases h2 : b.member k v with
      | some r2 => simpa [h1, h2] using hm
      | none => simp [h1, h2] at hm
  | none =>
      cases h2 : b.member k v with
      | some r2 => simp [h1, h2] at hm
      | none =>
          simp only
          split_ifs with hu
          · rw [h hu]; rfl
          · rfl

theorem blobCompat_step_urls (st : encryptedBlobCompat × List String) (k : String) (v : JSON)
    (h : fieldMatch "urls" k = true → v = .arr []) :
    (encryptedBlobCompat.step st k v).1.1.URLs =
      if fieldMatch "urls" k = true then some [] else st.1.URLs := by
  unfold encryptedBlobCompat.step
  split_ifs with hu
  · rw [embeddedMember_of_urls _ k v hu, h hu]
    simp [hu, decodeStringSlice]
  · cases embeddedMember st.1.NoncryptedBlob k v with
    | some r => rfl
    | none => simp [hu]

theorem configCompat_step_urls (st : encryptedConfigCompat × List String) (k : String)
    (v : JSON) (h : fieldMatch "urls" k = true → v = .arr []) :
    (encryptedConfigCompat.step st k v).1.1.URLs =
      if fieldMatch "urls" k = true then some [] else st.1.URLs := by
  unfold encryptedConfigCompat.step
  split_ifs with hu
  · rw [embeddedMember_of_urls _ k v hu, h hu]
    simp [hu, decodeStringSlice]
  · cases embeddedMember st.1.NoncryptedBlob k v with
    | some r => rfl
    | none => simp [hu]

theorem blobCompat_decode_empty (members : List (String × JSON))
    (h : ∀ kv ∈ members, fieldMatch "urls" kv.1 = true → kv.2 = .arr []) :
    ∀ (st : encryptedBlobCompat × List String) (b : NoncryptedBlob),
      (decodeMembers encryptedBlobCompat.step st members).1.1.URLs =
          (if members.any (fun kv => fieldMatch "urls" kv.1) = true then some []
            else st.1.URLs) ∧
        (decodeMembers encryptedBlobCompat.step st members).2 =
          (decodeMembers NoncryptedBlob.step b members).2 := by
  induction members with
  | nil => intro st b; exact ⟨by simp [decodeMembers], rfl⟩
  | cons kv rest ih =>
      intro st b
      have hkv := h kv (List.mem_cons_self _ _)
      obtain ⟨i1, i2⟩ := ih (fun x hx => h x (List.mem_cons_of_mem _ hx))
        (encryptedBlobCompat.step st kv.1 kv.2).1 (b.step kv.1 kv.2).1
      refine ⟨?_, ?_⟩
      · simp only [decodeMembers, i1, blobCompat_step_urls st kv.1 kv.2 hkv, List.any_cons,
          Bool.or_eq_true]
        by_cases a : fieldMatch "urls" kv.1 = true <;>
          by_cases c : rest.any (fun kv => fieldMatch "urls" kv.1) = true <;> simp [a, c]
      · simp only [decodeMembers, i2, blobCompat_step_error st b kv.1 kv.2 hkv]

theorem configCompat_decode_empty (members : List (String × JSON))
    (h : ∀ kv ∈ members, fieldMatch "urls" kv.1 = true → kv.2 = .arr []) :
    ∀ (st : encryptedConfigCompat × List String) (b : NoncryptedBlob),
      (decodeMembers encryptedConfigCompat.step st members).1.1.URLs =
          (if members.any (fun kv => fieldMatch "urls" kv.1) = true then some []
            else st.1.URLs) ∧
        (decodeMembers encryptedConfigCompat.step st members).2 =
          (decodeMembers NoncryptedBlob.step b members).2 := by
  induction members with
  | nil => intro st b; exact ⟨by simp [decodeMembers], rfl⟩
  | cons kv rest ih =>
      intro st b
      have hkv := h kv (List.mem_cons_self _ _)
      obtain ⟨i1, i2⟩ := ih (fun x hx => h x (List.mem_cons_of_mem _ hx))
        (encryptedConfigCompat.step st kv.1 kv.2).1 (b.step kv.1 kv.2).1
      refine ⟨?_, ?_⟩
      · simp only [decodeMembers, i1, configCompat_step_urls st kv.1 kv.2 hkv, List.any_cons,
          Bool.or_eq_true]
        by_cases a : fieldMatch "urls" kv.1 = true <;>
          by_cases c : rest.any (fun kv => fieldMatch "urls" kv.1) = true <;> simp [a, c]
      · simp only [decodeMembers, i2, configCompat_step_error st b kv.1 kv.2 hkv]

theorem any_urls_of_key (members : List (String × JSON)) (h : "urls" ∈ memberKeys members) :
    members.any (fun kv => fieldMatch "urls" kv.1) = true := by
  obtain ⟨kv, hm, hk⟩ := List.mem_map.1 h
  rw [List.any_eq_true]
  exact ⟨kv, hm, by rw [hk]; exact fieldMatch_urls_urls⟩

theorem templates_of_urls (members : List (String × JSON)) (hc : "crypto" ∉ memberKeys members)
    (hu : "urls" ∈ memberKeys members) :
    layerTemplate (RawMap.ofMembers members) = .encryptedBlobCompat ⟨none, none⟩ ∧
      configTemplate (RawMap.ofMembers members) = .encryptedConfigCompat ⟨none, none⟩ := by
  have n1 : ¬ (RawMap.ofMembers members).has "crypto" = true :=
    fun h => hc ((RawMap.has_ofMembers _ _).1 h)
  have n2 : (RawMap.ofMembers members).has "urls" = true := (RawMap.has_ofMembers _ _).2 hu
  unfold layerTemplate configTemplate
  rw [if_neg n1, if_pos n2, if_neg n1, if_pos n2]
  exact ⟨rfl, rfl⟩

/-- A blob object with `urls` members that are all empty arrays, and without
the key `crypto`, is decoded as an EncryptedCompat struct with an empty URL
list; the error returned is the one its `digest`, `mediaType` and `size`
members give. -/
theorem unmarshal_urls_empty (members : List (String × JSON))
    (hc : "crypto" ∉ memberKeys members) (hu : "urls" ∈ memberKeys members)
    (h : ∀ kv ∈ members, fieldMatch "urls" kv.1 = true → kv.2 = .arr []) :
    (∃ shared, (unmarshalLayer (.obj members)).1 =
        some (.encryptedBlobCompat ⟨shared, some []⟩)) ∧
      (∃ shared, (unmarshalConfig (.obj members)).1 =
        some (.encryptedConfigCompat ⟨shared, some []⟩)) ∧
      (unmarshalLayer (.obj members)).2 =
        (decodeMembers NoncryptedBlob.step NoncryptedBlob.zero members).2.map
          GoError.withStack ∧
      (unmarshalConfig (.obj members)).2 =
        (decodeMembers NoncryptedBlob.step NoncryptedBlob.zero members).2.map
          GoError.withStack := by
  obtain ⟨t1, t2⟩ := templates_of_urls members hc hu
  have ha := any_urls_of_key members hu
  obtain ⟨b1, b2⟩ := blobCompat_decode_empty members h (⟨none, none⟩, []) NoncryptedBlob.zero
  obtain ⟨c1, c2⟩ := configCompat_decode_empty members h (⟨none, none⟩, []) NoncryptedBlob.zero
  rw [ha, if_pos rfl] at b1 c1
  rw [unmarshalLayer_obj, unmarshalConfig_obj, t1, t2]
  simp only [decodeBlobMembers]
  refine ⟨⟨(decodeMembers encryptedBlobCompat.step (⟨none, none⟩, []) members).1.1.NoncryptedBlob,
    ?_⟩, ⟨(decodeMembers encryptedConfigCompat.step (⟨none, none⟩, [])
      members).1.1.NoncryptedBlob, ?_⟩, ?_, ?_⟩
  · rw [← b1]
  · rw [← c1]
  · rw [b2]
  · rw [c2]

/-! ## The layers and the config of a decoded manifest -/

theorem visitAll_Layers (entries : List (String × JSON)) :
    ∀ m : ImageManifest, (m.visitAll entries).Layers =
      match lastValue entries "layers" with
      | some v => (unmarshalLayers v).1
      | none => m.Layers := by
  induction entries with
  | nil => intro m; rfl
  | cons kv rest ih =>
      intro m
      simp only [ImageManifest.visitAll, List.foldl_cons] at ih ⊢
      rw [ih]
      simp only [lastValue]
      cases lastValue rest "layers" with
      | some v => rfl
      | none =>
          by_cases hk : kv.1 = "layers"
          · simp [hk, ImageManifest.visit]
          · simp only [hk, if_false]
            unfold ImageManifest.visit
            split_ifs <;> rfl

theorem visitAll_Config (entries : List (String × JSON)) :
    ∀ m : ImageManifest, (m.visitAll entries).Config =
      match lastValue entries "config" with
      | some v => (unmarshalConfig v).1
      | none => m.Config := by
  induction entries with
  | nil => intro m; rfl
  | cons kv rest ih =>
      intro m
      simp only [ImageManifest.visitAll, List.foldl_cons] at ih ⊢
      rw [ih]
      simp only [lastValue]
      cases lastValue rest "config" with
      | some v => rfl
      | none =>
          by_cases hk : kv.1 = "config"
          · simp [hk, ImageManifest.visit]
          · simp only [hk, if_false]
            unfold ImageManifest.visit
            split_ifs <;> rfl

theorem unmarshalLayersLoop_of_none (items : List JSON)
    (h : (unmarshalLayersLoop items).2 = none) :
    (unmarshalLayersLoop items).1 = items.map (fun j => (unmarshalLayer j).1) := by
  induction items with
  | nil => rfl
  | cons j js ih =>
      unfold unmarshalLayersLoop at h ⊢
      cases hj : (unmarshalLayer j).2 with
      | some e => simp [hj] at h
      | none =>
          simp only [hj] at h ⊢
          rw [List.map_cons, ih h]

theorem VisitOrder.lastValue_eq (members order : List (String × JSON))
    (h : VisitOrder (.obj members) order) (k : String) (v : JSON)
    (hv : lastValue members k = some v) : lastValue order k = some v :=
  (lastValue_eq_some_iff order (VisitOrder.nodup _ _ h) k v).2 ((VisitOrder.mem _ _ h k v).2 hv)

/-- When a manifest object decodes, the layers of the manifest are what
`unmarshalLayer` returns for the elements of its `layers` array, in order, and
its config is what `unmarshalConfig` returns for its `config` member. -/
theorem UnmarshalJSON_blobs (m : ImageManifest) (members order : List (String × JSON))
    (ho : VisitOrder (.obj members) order)
    (hok : (m.UnmarshalJSON (.obj members) order).2 = none) :
    (∀ items, lastValue members "layers" = some (.arr items) →
        (m.UnmarshalJSON (.obj members) order).1.Layers =
          items.map (fun j => (unmarshalLayer j).1)) ∧
      (∀ v, lastValue members "config" = some v →
        (m.UnmarshalJSON (.obj members) order).1.Config = (unmarshalConfig v).1) := by
  rw [UnmarshalJSON_obj] at hok ⊢
  rw [ImageManifest.range_ok order m hok]
  refine ⟨fun items hl => ?_, fun v hv => ?_⟩
  · have hmem : ("layers", JSON.arr items) ∈ order := (VisitOrder.mem _ _ ho _ _).2 hl
    have herr := (ImageManifest.range_none_iff order m).1 hok _ hmem
    have hloop : (unmarshalLayersLoop items).2 = none := by
      simpa [ImageManifest.visit, unmarshalLayers] using herr
    rw [visitAll_Layers, VisitOrder.lastValue_eq _ _ ho _ _ hl]
    exact unmarshalLayersLoop_of_none items hloop
  · rw [visitAll_Config, VisitOrder.lastValue_eq _ _ ho _ _ hv]

/-- C10, as the code has it: decoding (`ImageManifest.UnmarshalJSON`) a
manifest in which a blob has `"urls": []` never fails with the error
"missing encryption key": for every input and order of the map iteration,
an error returned by the decoder is a JSON type error. A blob object whose
`urls` members are empty arrays and which has no key `crypto` is decoded, by
`unmarshalLayer` and by `unmarshalConfig`, as an EncryptedCompat blob with an
empty URL list, the error returned with it being the one its `digest`,
`mediaType` and `size` members give; when the manifest decodes, its layers
are what `unmarshalLayer` returns for the elements of the `layers` array, in
order, and its config is what `unmarshalConfig` returns for the `config`
member. The error "missing encryption key" is returned later, by `DecryptKey`
and `DecryptBlob` on the EncryptedCompat blob with an empty URL list, before
any collaborator is called. -/
theorem unmarshal_empty_urls {σ δ : Type} (c : Collab σ δ) (m : ImageManifest) (data : JSON)
    (order blob : List (String × JSON)) (opts : Opts) (outname : String) (s : σ) :
    (∀ e, (m.UnmarshalJSON data order).2 = some e →
        e.isTypeError = true ∧ e.Error ≠ "missing encryption key") ∧
      ("crypto" ∉ memberKeys blob → "urls" ∈ memberKeys blob →
        (∀ kv ∈ blob, fieldMatch "urls" kv.1 = true → kv.2 = .arr []) →
        (∃ shared, (unmarshalLayer (.obj blob)).1 =
            some (.encryptedBlobCompat ⟨shared, some []⟩)) ∧
          (∃ shared, (unmarshalConfig (.obj blob)).1 =
            some (.encryptedConfigCompat ⟨shared, some []⟩)) ∧
          (unmarshalLayer (.obj blob)).2 =
            (decodeMembers NoncryptedBlob.step NoncryptedBlob.zero blob).2.map
              GoError.withStack ∧
          (unmarshalConfig (.obj blob)).2 =
            (decodeMembers NoncryptedBlob.step NoncryptedBlob.zero blob).2.map
              GoError.withStack) ∧
      (∀ members, data = .obj members → VisitOrder data order →
        (m.UnmarshalJSON data order).2 = none →
        (∀ items, lastValue members "layers" = some (.arr items) →
            (m.UnmarshalJSON data order).1.Layers =
              items.map (fun j => (unmarshalLayer j).1)) ∧
          (∀ v, lastValue members "config" = some v →
            (m.UnmarshalJSON data order).1.Config = (unmarshalConfig v).1)) ∧
      (∀ shared : Option NoncryptedBlob,
        encryptedBlobCompat.DecryptKey c ⟨shared, some []⟩ opts s =
            (.error (.message "missing encryption key"), s) ∧
          encryptedBlobCompat.DecryptBlob c ⟨shared, some []⟩ opts outname s =
            (.error (.message "missing encryption key"), s) ∧
          encryptedConfigCompat.DecryptKey c ⟨shared, some []⟩ opts s =
            (.error (.message "missing encryption key"), s) ∧
          encryptedConfigCompat.DecryptBlob c ⟨shared, some []⟩ opts outname s =
            (.error (.message "missing encryption key"), s)) := by
  refine ⟨?_, unmarshal_urls_empty blob, ?_, ?_⟩
  · intro e he
    have ht := UnmarshalJSON_onlyTypeError m data order e he
    exact ⟨ht, isTypeError_text e ht⟩
  · intro members hd ho hok
    subst hd
    exact UnmarshalJSON_blobs m members order ho hok
  · intro shared
    exact compat_of_newEncrypto_error c shared (some []) _ (newEncrypto_empty c (some []) rfl)
      opts outname s

/-- Witness of `unmarshal_empty_urls`: the manifest whose config and only layer
are blob objects with `"urls": []`, the map met with its first two entries
exchanged, and collaborators that count their calls. -/
theorem unmarshal_empty_urls_witness :
    (∃ shared, (unmarshalLayer (emptyURLsBlob "sha256:ab" "application/octet-stream" 7)).1 =
        some (.encryptedBlobCompat ⟨shared, some []⟩)) ∧
      (ImageManifest.zero.UnmarshalJSON
          (emptyURLsManifest "sha256:ab" "application/octet-stream" 7)
          [("mediaType", .str manifestV2), ("schemaVersion", .int 2),
            ("config", emptyURLsBlob "sha256:ab" "application/octet-stream" 7),
            ("layers", .arr [emptyURLsBlob "sha256:ab" "application/octet-stream" 7])]).1.Layers =
        [some (.encryptedBlobCompat ⟨some sharedBoth, some []⟩)] ∧
      encryptedBlobCompat.DecryptKey countingCollab ⟨some sharedBoth, some []⟩
        ⟨"PBKDF2-AES256-GCM", false⟩ 0 = (.error (.message "missing encryption key"), 0) :=
  ⟨((unmarshal_empty_urls countingCollab ImageManifest.zero .null []
        [("digest", .str "sha256:ab"), ("mediaType", .str "application/octet-stream"),
          ("size", .int 7), ("urls", .arr [])]
        ⟨"PBKDF2-AES256-GCM", false⟩ "out" 0).2.1 (by decide) (by decide) (by
          intro kv hkv hm
          simp only [List.mem_cons, List.mem_singleton, List.not_mem_nil, or_false] at hkv
          rcases hkv with rfl | rfl | rfl | rfl
          · exact absurd hm (by decide)
          · exact absurd hm (by decide)
          · exact absurd hm (by decide)
          · rfl)).1,
    ((unmarshal_empty_urls countingCollab ImageManifest.zero
        (emptyURLsManifest "sha256:ab" "application/octet-stream" 7)
        [("mediaType", .str manifestV2), ("schemaVersion", .int 2),
          ("config", emptyURLsBlob "sha256:ab" "application/octet-stream" 7),
          ("layers", .arr [emptyURLsBlob "sha256:ab" "application/octet-stream" 7])] []
        ⟨"PBKDF2-AES256-GCM", false⟩ "out" 0).2.2.1 _ rfl ⟨_, rfl, List.Perm.swap _ _ _⟩
        (by decide)).1 [emptyURLsBlob "sha256:ab" "application/octet-stream" 7] rfl,
    ((unmarshal_empty_urls countingCollab ImageManifest.zero .null [] []
        ⟨"PBKDF2-AES256-GCM", false⟩ "out" 0).2.2.2 (some sharedBoth)).1⟩

/-! ## Blobs that cannot be encoded -/

/-- C6 does not hold of the code as stated: for the config that
`unmarshalConfig` returns for a blob object with a `crypto` object (an
`encryptedConfigNew` whose `EnCrypto` is nil) and for the layer that
`unmarshalLayer` returns for a blob object with `"crypto": null`,
`marshalBlob` produces no JSON object: it stops on a nil dereference. -/
theorem marshalBlob_nil_key_faults :
    unmarshalConfig blobCrypto = (some (.encryptedConfigNew ⟨some sharedBoth, none⟩), none) ∧
      marshalBlob (some (.encryptedConfigNew ⟨some sharedBoth, none⟩)) = .fault nilDeref ∧
      unmarshalLayer blobCryptoNull = (some (.encryptedBlobNew ⟨some sharedBoth, none⟩), none) ∧
      marshalBlob (some (.encryptedBlobNew ⟨some sharedBoth, none⟩)) = .fault nilDeref ∧
      ¬ ∃ members,
        marshalBlob (some (.encryptedConfigNew ⟨some sharedBoth, none⟩)) = .ok (.obj members) := by
  refine ⟨by decide, rfl, by decide, rfl, ?_⟩
  rintro ⟨members, h⟩
  have hf : marshalBlob (some (.encryptedConfigNew ⟨some sharedBoth, none⟩)) = .fault nilDeref :=
    rfl
  rw [hf] at h
  cases h

end CryptoCli
